import Mathlib

/-!
Verification development for the protoc-gen-gorm plugin
(`src/plugin/plugin.go`).  The Go source is a code generator: it registers
annotated ("ormable") message types, classifies every field into a storage
type plus column metadata (`parseBasicFields`), and synthesizes bidirectional
conversion functions between the wire ("PB") and storage ("ORM")
representations (`generateConvertFunctions`, `generateFieldConversion`,
`setupOrderedHasMany`).

The development embeds, from the source:
  * the registration / per-file resolution pipeline of `Generate`;
  * the per-field classification of `parseBasicFields`, including the
    `atlas.rpc.Identifier` tag-type table and the `refers_to` validation;
  * the structure of the emitted conversion functions, as a list of emitted
    transform descriptors (one per non-dropped declared field, plus the
    multi-account assignment and the ordered has-many position re-stamping);
  * the runtime semantics of the emitted conversion skeleton (before-hook,
    field steps, after-hook) and of the individual emitted fragments that the
    claims are about (repeated-ormable element loops, required-UUID
    conversion, position re-stamping).

Helpers of the repository that are referenced by `plugin.go` but whose
definitions live outside the given source file (`p.fieldType`,
`p.IsAbleToMakePQArray`, `generator.CamelCase`, the `ident*` constants) are
modelled faithfully to their uses in the source; each such definition carries
a comment saying so.
-/

namespace ProtocGenGorm

/-! ## String helpers -/

/-- Substring test, modelling Go `strings.Contains`. -/
def strContains (s pat : String) : Bool :=
  go s.toList
where
  go : List Char → Bool
    | [] => pat.toList.isPrefixOf []
    | c :: rest => pat.toList.isPrefixOf (c :: rest) || go rest

/-- ASCII lowering, modelling Go `strings.ToLower` (a structurally
recursive equivalent of `String.toLower`, so that proofs can compute it). -/
def toLowerStr (s : String) : String :=
  String.mk (s.data.map Char.toLower)

/-- Split a character list at every occurrence of `c`. -/
def splitOnChar (c : Char) : List Char → List (List Char)
  | [] => [[]]
  | x :: rest =>
    let r := splitOnChar c rest
    if x = c then [] :: r
    else
      match r with
      | [] => [[x]]
      | hd :: tl => (x :: hd) :: tl

/-- Capitalize the first character of a word. -/
def capitalizeL : List Char → List Char
  | [] => []
  | c :: rest => c.toUpper :: rest

/-- Modelled from the repository helper `generator.CamelCase` (not in
`src/plugin`): underscore-separated words are capitalized and joined. -/
def camelCase (s : String) : String :=
  String.mk (((splitOnChar '_' s.data).map capitalizeL).flatten)

/-- Whether the type string denotes a pointer (Go
`strings.HasPrefix(s, "*")`). -/
def startsWithStar (s : String) : Bool :=
  match s.data with
  | '*' :: _ => true
  | _ => false

/-- Go `strings.TrimPrefix(s, "*")`. -/
def trimStar (s : String) : String :=
  match s.data with
  | '*' :: rest => String.mk rest
  | _ => s

/-- The part of `s` after the last `"."` (Go
`s[strings.LastIndex(s, ".")+1:]`, also used to take the last segment of a
dotted proto type name). -/
def lastDotSegment (s : String) : String :=
  String.mk ((splitOnChar '.' s.data).getLastD s.data)

/-! ## Association lists (modelling Go maps keyed by strings) -/

/-- Lookup in an association list (Go map read). -/
def lookupA {α : Type} (k : String) : List (String × α) → Option α
  | [] => none
  | (k', v) :: rest => if k' = k then some v else lookupA k rest

/-- Insert-or-replace in an association list (Go map write). -/
def insertA {α : Type} (k : String) (v : α) : List (String × α) → List (String × α)
  | [] => [(k, v)]
  | (k', v') :: rest => if k' = k then (k, v) :: rest else (k', v') :: insertA k v rest

/-- The key set of an association list. -/
def keysA {α : Type} (l : List (String × α)) : List String :=
  l.map Prod.fst

/-- Insert a name into a name set (Go `map[string]struct{}` write):
idempotent by name. -/
def insertName (n : String) (l : List String) : List String :=
  if n ∈ l then l else l ++ [n]

/-! ## Data model: proto messages and gorm annotations -/

/-- `gorm.GormTag` — the per-field column tag (only the parts the plugin
reads: `Type`, `NotNull`, `PrimaryKey`). -/
structure GormTag where
  typ : Option String := none
  notNull : Bool := false
  primaryKey : Bool := false
deriving DecidableEq, Repr

/-- `gorm.HasManyOptions` — only the `position_field` part is read by the
code under study. -/
structure HasManyOpts where
  positionField : String := ""
deriving DecidableEq, Repr

/-- `gorm.GormFieldOptions` — per-field annotations read by the plugin. -/
structure GormFieldOptions where
  drop : Bool := false
  tag : Option GormTag := none
  referenceOf : String := ""
  hasMany : Option HasManyOpts := none
deriving DecidableEq, Repr

/-- Proto scalar kinds, with the 64-bit variants collapsed as in the
`protoPrimitiveKinds` table of the source. -/
inductive ScalarKind where
  | kbool | kint32 | kint64 | kuint32 | kuint64
  | kfloat | kdouble | kstring | kbytes
deriving DecidableEq, Repr

/-- The descriptor of a field: scalar, enum (with enum type name) or
message (with the message type name, as returned by `desc.Message().Name()`). -/
inductive FieldDesc where
  | scalar (k : ScalarKind)
  | enum (ename : String)
  | message (mname : String)
deriving DecidableEq, Repr

/-- A proto field, with its Go name, repeatedness, descriptor and gorm
annotations (`nil` options modelled as `none`). -/
structure PField where
  goName : String
  isList : Bool := false
  desc : FieldDesc
  opts : Option GormFieldOptions := none
deriving DecidableEq, Repr

/-- `gorm.ExtraField` — an included extra field declared on the message. -/
structure ExtraField where
  name : String
  typ : String
  pkg : String := ""
  tag : Option GormTag := none
deriving DecidableEq, Repr

/-- `gorm.GormMessageOptions` — per-message annotations. -/
structure MessageOptions where
  ormable : Bool := false
  multiAccount : Bool := false
  includedFields : List ExtraField := []
  table : Option String := none
deriving DecidableEq, Repr

/-- A proto message. -/
structure PMessage where
  name : String
  isMapEntry : Bool := false
  opts : Option MessageOptions := none
  fields : List PField := []
deriving DecidableEq, Repr

/-- A proto input file: the plugin only reads its message list (the
`Generate` flag governs output emission, not registration). -/
structure PFile where
  messages : List PMessage
deriving DecidableEq, Repr

/-- The DB engine enum of the source (`ENGINE_UNSET`, `ENGINE_POSTGRES`). -/
inductive Engine where
  | unset
  | postgres
deriving DecidableEq, Repr

/-- The global plugin configuration read by the classification code. -/
structure PluginCfg where
  dbEngine : Engine
  stringEnums : Bool
deriving DecidableEq, Repr

/-- The configuration `Init` hardcodes: postgres engine, string enums. -/
def initCfg : PluginCfg := { dbEngine := Engine.postgres, stringEnums := true }

/-! ### Getters, modelling Go's nil-tolerant proto getters -/

/-- `getFieldOptions(field).GetDrop()` (nil options read as the zero
options). -/
def getDrop (f : PField) : Bool :=
  ((f.opts).getD {}).drop

/-- `getFieldOptions(field).GetReferenceOf()`. -/
def getReferenceOf (f : PField) : String :=
  ((f.opts).getD {}).referenceOf

/-- `getFieldOptions(field).GetTag()`. -/
def getTagOfField (f : PField) : Option GormTag :=
  ((f.opts).getD {}).tag

/-- `tag.GetType()` on a possibly-nil tag. -/
def tagGetType : Option GormTag → String
  | none => ""
  | some t => t.typ.getD ""

/-- `tag.GetNotNull()` on a possibly-nil tag. -/
def tagGetNotNull : Option GormTag → Bool
  | none => false
  | some t => t.notNull

/-- `tag.GetPrimaryKey()` on a possibly-nil tag. -/
def tagGetPrimaryKey : Option GormTag → Bool
  | none => false
  | some t => t.primaryKey

/-- `field.GetHasMany().GetPositionField()` on possibly-nil options. -/
def getHasManyPosition : Option GormFieldOptions → String
  | none => ""
  | some o =>
    match o.hasMany with
    | none => ""
    | some h => h.positionField

/-- `getMessageOptions(msg)` with nil modelled as the zero options. -/
def getMessageOptions (m : PMessage) : MessageOptions :=
  m.opts.getD {}

/-! ### Field typing helpers -/

/-- The `protoPrimitiveKinds` table of the source. -/
def scalarGoType : ScalarKind → String
  | .kbool => "bool"
  | .kint32 => "int32"
  | .kint64 => "int64"
  | .kuint32 => "uint32"
  | .kuint64 => "uint64"
  | .kfloat => "float32"
  | .kdouble => "float64"
  | .kstring => "string"
  | .kbytes => "[]byte"

/-- Modelled from the repository helper `p.fieldType` (not in `src/plugin`),
faithful to its uses in the source: repeated scalars yield `[]T` (so that
`IsAbleToMakePQArray` can match `[]bool` etc.), message fields yield the
message type name (so that `strings.Split(fieldType, ".")` recovers the
semantic-type suffix and `p.isOrmable(fieldType)` recognizes registered
types), enums yield the enum type name. -/
def fieldTypeOf (f : PField) : String :=
  match f.desc with
  | .scalar k => if f.isList then "[]" ++ scalarGoType k else scalarGoType k
  | .enum ename => ename
  | .message mname => mname

/-- `desc.Message() != nil`. -/
def isMessageField (f : PField) : Bool :=
  match f.desc with
  | .message _ => true
  | _ => false

/-- `desc.Enum() != nil`. -/
def isEnumField (f : PField) : Bool :=
  match f.desc with
  | .enum _ => true
  | _ => false

/-- The `wellKnownTypes` map of the source. -/
def wellKnownTypes : String → Option String
  | "StringValue" => some "*string"
  | "DoubleValue" => some "*float64"
  | "FloatValue" => some "*float32"
  | "Int32Value" => some "*int32"
  | "Int64Value" => some "*int64"
  | "UInt32Value" => some "*uint32"
  | "UInt64Value" => some "*uint64"
  | "BoolValue" => some "*bool"
  | _ => none

/-- Modelled from the repository helper `p.IsAbleToMakePQArray` (not in
`src/plugin`); per the spec and the switch cases at its call sites, exactly
the four pq-array element types are accepted. -/
def isAbleToMakePQArray (t : String) : Prop :=
  t = "[]bool" ∨ t = "[]float64" ∨ t = "[]int64" ∨ t = "[]string"

instance (t : String) : Decidable (isAbleToMakePQArray t) := by
  unfold isAbleToMakePQArray; infer_instance

/-- `tagWithType` of the source: returns the tag with its `Type` set,
allocating a fresh tag when the input is nil. -/
def tagWithType (tag : Option GormTag) (typename : String) : GormTag :=
  match tag with
  | none => { typ := some typename }
  | some t => { t with typ := some typename }

/-- Convenience: a field's options with its column tag's type set to
`typename` (the effect of `fieldOpts.Tag = tagWithType(tag, typename)`). -/
def optsWithTagType (f : PField) (typename : String) : GormFieldOptions :=
  let o := (f.opts).getD {}
  { o with tag := some (tagWithType o.tag typename) }

/-! ### The `atlas.rpc.Identifier` tag-type table (plugin.go lines 315-341) -/

/-- The tag-type normalization for `Identifier` fields: lowercase, then any
tag containing `"char"` collapses to `"char"`, then any tag containing
`"array"` or a square bracket collapses to `"array"` (sequential
reassignments, as in the source). -/
def identifierTType (raw : String) : String :=
  let t0 := toLowerStr raw
  let t1 := if strContains t0 "char" then "char" else t0
  let t2 :=
    if strContains t1 "array" || t1.data.any (fun c => c = '[' ∨ c = ']') then "array" else t1
  t2

/-- The storage-type switch on the normalized `Identifier` tag type
(the `switch ttype` of the source); `Fail` is modelled as `Except.error`
carrying the `Fail` argument list. -/
def identifierBase (ttype : String) : Except (List String) String :=
  if ttype ∈ ["uuid", "text", "char", "array", "cidr", "inet", "macaddr"] then
    Except.ok "*string"
  else if ttype ∈ ["smallint", "integer", "bigint", "numeric", "smallserial", "serial", "bigserial"] then
    Except.ok "*int64"
  else if ttype ∈ ["jsonb", "bytea"] then
    Except.ok "[]byte"
  else if ttype = "" then
    Except.ok "interface\x7b\x7d"
  else
    Except.error ["unknown tag type of atlas.rpc.Identifier"]

/-- The full `Identifier` storage-type selection: normalize the declared tag
type, run the switch, then strip the pointer wrapper when the tag marks the
field not-null or primary-key. -/
def identifierStorage (tag : Option GormTag) : Except (List String) String :=
  match identifierBase (identifierTType (tagGetType tag)) with
  | Except.error e => Except.error e
  | Except.ok t =>
    Except.ok (if tagGetNotNull tag || tagGetPrimaryKey tag then trimStar t else t)

/-! ### Per-field classification (`parseBasicFields` field loop) -/

/-- Result of classifying one field: skipped (`continue`), fatal
(`p.Fail(args...)`), or kept with a storage type and (possibly updated)
options. -/
inductive FieldRes where
  | skip
  | fail (args : List String)
  | keep (typ : String) (opts : GormFieldOptions)
deriving DecidableEq, Repr

/-- The per-field classification of `parseBasicFields` (plugin.go lines
245-358), mirroring its control flow.  `ormNames` is the key set of the
ormable-type registry at the time of the call.  The Go type strings for the
semantic extension types (`uuid.UUID`, `*time.Time`, ...) stand for the
`ident*` constants, which are declared outside `src/plugin`. -/
def classifyField (cfg : PluginCfg) (ormNames : List String) (f : PField) : FieldRes :=
  let fieldOpts := (f.opts).getD {}
  if fieldOpts.drop then FieldRes.skip
  else
    let tag := fieldOpts.tag
    let ft := fieldTypeOf f
    if cfg.dbEngine = Engine.postgres ∧ isAbleToMakePQArray ft then
      if ft = "[]bool" then
        FieldRes.keep "pq.BoolArray" { fieldOpts with tag := some (tagWithType tag "bool[]") }
      else if ft = "[]float64" then
        FieldRes.keep "pq.Float64Array" { fieldOpts with tag := some (tagWithType tag "float[]") }
      else if ft = "[]int64" then
        FieldRes.keep "pq.Int64Array" { fieldOpts with tag := some (tagWithType tag "integer[]") }
      else if ft = "[]string" then
        FieldRes.keep "pq.StringArray" { fieldOpts with tag := some (tagWithType tag "text[]") }
      else FieldRes.skip
    else if (isMessageField f = true ∨ ft ∉ ormNames) ∧ f.isList = true then
      FieldRes.skip
    else if isEnumField f = true then
      FieldRes.keep (if cfg.stringEnums then "string" else "int32") fieldOpts
    else
      match f.desc with
      | FieldDesc.message mname =>
        let rawType := lastDotSegment mname
        match wellKnownTypes rawType with
        | some v => FieldRes.keep v fieldOpts
        | none =>
          if rawType = "UUID" then
            FieldRes.keep "uuid.UUID"
              (if cfg.dbEngine = Engine.postgres then
                { fieldOpts with tag := some (tagWithType tag "uuid") }
               else fieldOpts)
          else if rawType = "UUIDValue" then
            FieldRes.keep "*uuid.UUID"
              (if cfg.dbEngine = Engine.postgres then
                { fieldOpts with tag := some (tagWithType tag "uuid") }
               else fieldOpts)
          else if rawType = "Timestamp" then
            FieldRes.keep "*time.Time" fieldOpts
          else if rawType = "JSONValue" then
            if cfg.dbEngine = Engine.postgres then
              FieldRes.keep "*pq.Jsonb" { fieldOpts with tag := some (tagWithType tag "jsonb") }
            else FieldRes.skip
          else if rawType = "Identifier" then
            match identifierStorage (getTagOfField f) with
            | Except.error args => FieldRes.fail args
            | Except.ok t => FieldRes.keep t fieldOpts
          else if rawType = "InetValue" then
            FieldRes.keep "*types.Inet"
              { fieldOpts with
                tag := some (tagWithType tag
                  (if cfg.dbEngine = Engine.postgres then "inet" else "varchar(48)")) }
          else if rawType = "TimeOnly" then
            FieldRes.keep "string" { fieldOpts with tag := some (tagWithType tag "time") }
          else FieldRes.skip
      | _ => FieldRes.keep ft fieldOpts

/-! ## The resolved storage-type catalog -/

/-- The resolver's `Field` struct (named `OrmField` here because `Field` is
taken by Mathlib): resolved storage type, package, the gorm options pointer
(nil for the synthesized `AccountID` field) and the parent-origin name set by
`refers_to` resolution.  The `F` back-pointer to the proto field is not
needed by the verified claims. -/
structure OrmField where
  typ : String
  pkg : String := ""
  opts : Option GormFieldOptions := none
  parentOriginName : String := ""
deriving DecidableEq, Repr

/-- `OrmableType`: origin name, generated struct name, and the field map. -/
structure OrmableType where
  originName : String
  name : String := ""
  fields : List (String × OrmField) := []
deriving DecidableEq, Repr

/-- `NewOrmableType`. -/
def newOrmableType (m : PMessage) : OrmableType :=
  { originName := m.name }

/-! ## `parseBasicFields` (plugin.go lines 240-385) -/

/-- The field loop of `parseBasicFields`: classify each declared field in
order; a kept field is validated against `refers_to` (fatal when the target
is not in the message-name registry, with the `Fail` argument list of the
source) and inserted into the field map under its Go name. -/
def parseFieldsLoop (cfg : PluginCfg) (messages : List String) (ormNames : List String)
    (typeName : String) :
    List PField → OrmableType → Except (List String) OrmableType
  | [], orm => Except.ok orm
  | f :: rest, orm =>
    match classifyField cfg ormNames f with
    | FieldRes.skip => parseFieldsLoop cfg messages ormNames typeName rest orm
    | FieldRes.fail args => Except.error args
    | FieldRes.keep t opts =>
      let tname := getReferenceOf f
      if tname ≠ "" then
        if tname ∈ messages then
          parseFieldsLoop cfg messages ormNames typeName rest
            { orm with
              fields := insertA f.goName
                { typ := t, opts := some opts, parentOriginName := tname } orm.fields }
        else
          Except.error ["unknown message type in refers_to: ", tname,
            " in field: ", f.goName, " of type: ", typeName]
      else
        parseFieldsLoop cfg messages ormNames typeName rest
          { orm with
            fields := insertA f.goName
              { typ := t, opts := some opts, parentOriginName := "" } orm.fields }

/-- `addIncludedField`: the included extra field is inserted under the
CamelCased name, with the type string stripped of its package path (`F`
ident resolution and the unrecognized-type warning do not change the stored
`Field` and are omitted). -/
def addIncludedField (orm : OrmableType) (e : ExtraField) : OrmableType :=
  let isPtr := startsWithStar e.typ
  let raw := lastDotSegment (trimStar e.typ)
  let raw := if isPtr then "*" ++ raw else raw
  { orm with
    fields := insertA (camelCase e.name)
      { typ := raw, pkg := e.pkg, opts := some { tag := e.tag } } orm.fields }

/-- The included-fields loop of `parseBasicFields` (lines 377-384): the
collision check uses the raw declared name, while `addIncludedField` inserts
under the CamelCased name, as in the source. -/
def includesLoop (ormName : String) :
    List ExtraField → OrmableType → Except (List String) OrmableType
  | [], orm => Except.ok orm
  | e :: rest, orm =>
    match lookupA e.name orm.fields with
    | some _ =>
      Except.error ["Cannot include", e.name, "field into", ormName,
        "as it aready exists there."]
    | none => includesLoop ormName rest (addIncludedField orm e)

/-- The multi-account synthesis of `parseBasicFields` (lines 370-376):
insert `AccountID : string` when absent; an existing `AccountID` of a
different type is fatal. -/
def multiAccountStep (msg : PMessage) (orm : OrmableType) : Except (List String) OrmableType :=
  if (getMessageOptions msg).multiAccount then
    match lookupA "AccountID" orm.fields with
    | none =>
      Except.ok { orm with fields := insertA "AccountID" { typ := "string" } orm.fields }
    | some accID =>
      if accID.typ ≠ "string" then
        Except.error ["Cannot include AccountID field into", orm.name,
          "as it already exists there with a different type."]
      else Except.ok orm
  else Except.ok orm

/-- `parseBasicFields`: set the ORM struct name, run the field loop, then
the multi-account synthesis and the included-fields loop. -/
def parseBasicFields (cfg : PluginCfg) (messages : List String) (ormNames : List String)
    (msg : PMessage) (orm0 : OrmableType) : Except (List String) OrmableType :=
  match parseFieldsLoop cfg messages ormNames msg.name msg.fields
      { orm0 with name := msg.name ++ "ORM" } with
  | Except.error e => Except.error e
  | Except.ok orm1 =>
    match multiAccountStep msg orm1 with
    | Except.error e => Except.error e
    | Except.ok orm2 => includesLoop orm2.name (getMessageOptions msg).includedFields orm2

/-! ## The registration / resolution pipeline of `Generate`
(plugin.go lines 176-238) -/

/-- The mutable plugin state the pipeline threads: the message-name registry
`p.messages` and the ormable-type registry `p.ormableTypes`. -/
structure GenState where
  messages : List String := []
  ormables : List (String × OrmableType) := []
deriving DecidableEq, Repr

/-- The registration loop of `Generate` for one file (lines 192-204): every
non-map-entry message name enters `p.messages`; an ormable message not yet
registered enters `p.ormableTypes`. -/
def registerMsgs (σ : GenState) : List PMessage → GenState
  | [] => σ
  | m :: rest =>
    if m.isMapEntry then registerMsgs σ rest
    else
      let σ1 : GenState := { σ with messages := insertName m.name σ.messages }
      let σ2 : GenState :=
        if (getMessageOptions m).ormable ∧ (lookupA m.name σ1.ormables).isNone then
          { σ1 with ormables := insertA m.name (newOrmableType m) σ1.ormables }
        else σ1
      registerMsgs σ2 rest

/-- The resolution loop of `Generate` for one file (lines 205-209): run
`parseBasicFields` on each message that is registered as ormable. -/
def resolveMsgs (cfg : PluginCfg) (σ : GenState) :
    List PMessage → Except (List String) GenState
  | [] => Except.ok σ
  | m :: rest =>
    match lookupA m.name σ.ormables with
    | none => resolveMsgs cfg σ rest
    | some orm =>
      match parseBasicFields cfg σ.messages (keysA σ.ormables) m orm with
      | Except.error e => Except.error e
      | Except.ok orm' =>
        resolveMsgs cfg { σ with ormables := insertA m.name orm' σ.ormables } rest

/-- The per-file pipeline of `Generate`: for each file in order, first the
registration loop, then the resolution loop — registration and resolution
are interleaved file by file, as in the source.  The association/primary-key
pass (`parseAssociations`, lines 210-219) and service parsing are outside
`src/plugin` and do not alter the two name registries, so they are omitted
here. -/
def generateFiles (cfg : PluginCfg) :
    List PFile → GenState → Except (List String) GenState
  | [], σ => Except.ok σ
  | file :: rest, σ =>
    let σ1 := registerMsgs σ file.messages
    match resolveMsgs cfg σ1 file.messages with
    | Except.error e => Except.error e
    | Except.ok σ2 => generateFiles cfg rest σ2

/-- Run the whole-input pipeline from the empty state. -/
def generateModel (cfg : PluginCfg) (files : List PFile) : Except (List String) GenState :=
  generateFiles cfg files {}

/-- Whether a run succeeded. -/
def isOkE {ε α : Type} : Except ε α → Bool
  | Except.ok _ => true
  | Except.error _ => false

/-- The ormable-type names registered by a run (empty on a fatal error:
nothing partial is produced). -/
def registeredOrmableNames (r : Except (List String) GenState) : List String :=
  match r with
  | Except.ok σ => keysA σ.ormables
  | Except.error _ => []

/-- The resolved field map of one registered type after a run. -/
def ormFieldsOf (r : Except (List String) GenState) (tname : String) :
    List (String × OrmField) :=
  match r with
  | Except.ok σ =>
    match lookupA tname σ.ormables with
    | some o => o.fields
    | none => []
  | Except.error _ => []

/-! ## Conversion synthesis (`generateConvertFunctions`,
`generateFieldConversion`, `setupOrderedHasMany`; plugin.go lines 482-546,
549-789, 811-833)

The generator emits, per type and direction, a fixed skeleton: the optional
before-hook call, one transform per non-dropped declared field (in
declaration order), on the wire→storage direction the multi-account
assignment and then the ordered has-many position re-stamping loops, and the
optional after-hook call.  We model the emitted function as a list of
transform descriptors. -/

/-- The transform kind chosen by the dispatch of `generateFieldConversion`. -/
inductive ConvKind where
  | pqArray            -- repeated scalar copied into a pq array
  | repeatedOrmable    -- repeated registered message, element-wise recursion
  | repeatedUnsupported -- repeated fields with no transform (comment only)
  | enumConv
  | wkt
  | uuidValue
  | uuidReq
  | timestampConv
  | jsonValue
  | resourceConv
  | inetConv
  | timeOnly
  | nestedOrmable
  | rawCopy
  | noTransform        -- singular message with no suffix match, not ormable
deriving DecidableEq, Repr

/-- The dispatch of `generateFieldConversion` (lines 549-789), mirroring the
order of its branches. -/
def convKindOf (cfg : PluginCfg) (ormNames : List String) (f : PField) : ConvKind :=
  let ft := fieldTypeOf f
  if f.isList then
    if cfg.dbEngine = Engine.postgres ∧ isAbleToMakePQArray ft then ConvKind.pqArray
    else if ft ∈ ormNames then ConvKind.repeatedOrmable
    else ConvKind.repeatedUnsupported
  else if isEnumField f then ConvKind.enumConv
  else
    match f.desc with
    | FieldDesc.message mname =>
      let coreType := lastDotSegment mname
      if (wellKnownTypes coreType).isSome then ConvKind.wkt
      else if coreType = "UUIDValue" then ConvKind.uuidValue
      else if coreType = "UUID" then ConvKind.uuidReq
      else if coreType = "Timestamp" then ConvKind.timestampConv
      else if coreType = "JSONValue" then ConvKind.jsonValue
      else if coreType = "Identifier" then ConvKind.resourceConv
      else if coreType = "InetValue" then ConvKind.inetConv
      else if coreType = "TimeOnly" then ConvKind.timeOnly
      else if ft ∈ ormNames then ConvKind.nestedOrmable
      else ConvKind.noTransform
    | _ => ConvKind.rawCopy

/-- One emitted piece of a conversion function. -/
inductive ConvStep where
  | beforeHook
  | fieldConv (name : String) (kind : ConvKind)
  | accountID
  | orderedStamp (fieldName : String) (positionField : String)
  | afterHook
deriving DecidableEq, Repr

/-- The struct-field names of the converted pair that a step's emitted code
reads or writes (`m.<name>` / `to.<name>`); the hook calls are user code, not
generated assignments, and the position field of an ordered stamp lives on
the child type, not on this struct. -/
def stepRefs : ConvStep → List String
  | ConvStep.beforeHook => []
  | ConvStep.fieldConv name _ => [name]
  | ConvStep.accountID => ["AccountID"]
  | ConvStep.orderedStamp fieldName _ => [fieldName]
  | ConvStep.afterHook => []

/-- `ConvStep.isOrdered`. -/
def ConvStep.isOrdered : ConvStep → Bool
  | ConvStep.orderedStamp _ _ => true
  | _ => false

/-- `ConvStep.isFieldConv`. -/
def ConvStep.isFieldConv : ConvStep → Bool
  | ConvStep.fieldConv _ _ => true
  | _ => false

/-- Lexicographic comparison of character lists (a computable equivalent of
the byte-wise order Go `sort.Strings` uses, agreeing on ASCII names). -/
def charListLe : List Char → List Char → Bool
  | [], _ => true
  | _ :: _, [] => false
  | a :: as, b :: bs => if a = b then charListLe as bs else decide (a.val < b.val)

/-- String comparison on the underlying character lists. -/
def strLe (a b : String) : Bool :=
  charListLe a.data b.data

/-- `getSortedFieldNames`: the field-map keys in sorted order (the
deterministic iteration order the generator uses for map-keyed loops). -/
def sortedFieldNames (fields : List (String × OrmField)) : List String :=
  (keysA fields).insertionSort (fun a b => strLe a b = true)

/-- `setupOrderedHasMany` / `setupOrderedHasManyByName` (lines 811-833): for
every field of the resolved type, in sorted name order, whose has-many
options declare a position field, emit a re-stamping loop.  (The child
type's position-field Go type, looked up only to render the index cast, does
not affect which loops are emitted.) -/
def orderedStampSteps (orm : OrmableType) : List ConvStep :=
  (sortedFieldNames orm.fields).filterMap fun n =>
    match lookupA n orm.fields with
    | none => none
    | some fld =>
      let p := getHasManyPosition fld.opts
      if p = "" then none else some (ConvStep.orderedStamp n p)

/-- The emitted `ToORM` body (lines 486-518): before-hook, one transform per
non-dropped declared field in declaration order, the multi-account
assignment, the ordered has-many stamping, the after-hook. -/
def emitToORM (cfg : PluginCfg) (ormNames : List String) (orm : OrmableType)
    (msg : PMessage) : List ConvStep :=
  [ConvStep.beforeHook]
    ++ (msg.fields.filter (fun f => getDrop f = false)).map
        (fun f => ConvStep.fieldConv f.goName (convKindOf cfg ormNames f))
    ++ (if (getMessageOptions msg).multiAccount then [ConvStep.accountID] else [])
    ++ orderedStampSteps orm
    ++ [ConvStep.afterHook]

/-- The emitted `ToPB` body (lines 521-545): before-hook, one transform per
non-dropped declared field in declaration order, the after-hook — no
multi-account assignment and no ordered stamping. -/
def emitToPB (cfg : PluginCfg) (ormNames : List String) (msg : PMessage) :
    List ConvStep :=
  [ConvStep.beforeHook]
    ++ (msg.fields.filter (fun f => getDrop f = false)).map
        (fun f => ConvStep.fieldConv f.goName (convKindOf cfg ormNames f))
    ++ [ConvStep.afterHook]

/-! ## Runtime semantics of the emitted conversion skeleton

A transform over the partially built output struct of type `T` either
updates it or aborts with an error (`return to, err` in the generated
code). -/

/-- Run emitted middle steps in order; the first step reporting an error
aborts the remaining steps and returns the partial result with that error. -/
def runConvSteps {T E : Type} : List (T → T × Option E) → T → T × Option E
  | [], t => (t, none)
  | s :: rest, t =>
    match s t with
    | (t', none) => runConvSteps rest t'
    | (t', some e) => (t', some e)

/-- The emitted conversion skeleton (both directions): the before-hook runs
first on the zero-value output and may mutate it; if it reports an error the
function returns the hook's partially built result with that error.
Otherwise the middle steps run; a middle-step error returns immediately.
Otherwise the after-hook (if supplied) runs last and its result — error or
success — is the final result. -/
def convertWithHooks {T E : Type} (pre post : Option (T → T × Option E))
    (mid : List (T → T × Option E)) (init : T) : T × Option E :=
  match (match pre with | none => (init, none) | some h => h init) with
  | (t0, some e) => (t0, some e)
  | (t0, none) =>
    match runConvSteps mid t0 with
    | (t1, some e) => (t1, some e)
    | (t1, none) =>
      match post with
      | none => (t1, none)
      | some h => h t1

/-- Semantics of the emitted `ToORM`: field transforms, then the
multi-account step, then the ordered stamping steps, between the hooks. -/
def toOrmSem {T E : Type} (pre post : Option (T → T × Option E))
    (fieldSteps acctSteps orderedSteps : List (T → T × Option E)) (init : T) :
    T × Option E :=
  convertWithHooks pre post (fieldSteps ++ acctSteps ++ orderedSteps) init

/-- Semantics of the emitted `ToPB`: only field transforms between the
hooks. -/
def toPbSem {T E : Type} (pre post : Option (T → T × Option E))
    (fieldSteps : List (T → T × Option E)) (init : T) : T × Option E :=
  convertWithHooks pre post fieldSteps init

/-! ## Semantics of individual emitted fragments -/

/-- A child record of an ordered has-many association: its position field
and its other converted data (opaque). -/
structure StampChild where
  pos : Nat
  data : Int
deriving DecidableEq, Repr

/-- The emitted re-stamping loop `for i, e := range to.F { e.Pos = T(i) }`,
starting at index `i`. -/
def stampFrom (i : Nat) : List StampChild → List StampChild
  | [] => []
  | c :: rest => { c with pos := i } :: stampFrom (i + 1) rest

/-- The emitted re-stamping loop over a whole child list (indices from 0). -/
def stampStep (l : List StampChild) : List StampChild :=
  stampFrom 0 l

/-- The emitted loop for a repeated registered-message field (lines
571-588), carrying the output accumulator `to.<field>`: a nil element is
appended as nil without calling the element converter; a non-nil element is
converted, a conversion error aborting the whole call with the partial
output and that error. -/
def convertRepeatedLoop {α β ε : Type} (conv : α → Except ε β) :
    List (Option α) → List (Option β) → List (Option β) × Option ε
  | [], acc => (acc, none)
  | none :: rest, acc => convertRepeatedLoop conv rest (acc ++ [none])
  | some v :: rest, acc =>
    match conv v with
    | Except.ok b => convertRepeatedLoop conv rest (acc ++ [some b])
    | Except.error e => (acc, some e)

/-- The repeated-ormable conversion from an empty output slice. -/
def convertRepeatedOrmable {α β ε : Type} (conv : α → Except ε β)
    (l : List (Option α)) : List (Option β) × Option ε :=
  convertRepeatedLoop conv l []

/-- The value of a successful element conversion. -/
def exceptToOption {ε β : Type} : Except ε β → Option β
  | Except.ok b => some b
  | Except.error _ => none

/-- A UUID value; `uuid.Nil`, the all-zero UUID, is modelled as 0. -/
structure UUIDVal where
  val : Nat
deriving DecidableEq, Repr

/-- `uuid.Nil` (the all-zero UUID constant `identNilUUID`). -/
def nilUUID : UUIDVal := { val := 0 }

/-- The emitted wire→storage conversion of a required (non-wrapper) UUID
field (lines 637-646): a nil wire pointer assigns `uuid.Nil` without error;
otherwise the string value is parsed, the parse result is assigned, and a
parse error is returned (`to.F, err = uuid.FromString(...); if err != nil {
return to, err }`). -/
def uuidRequiredToOrm {ε : Type} (fromStringFn : String → UUIDVal × Option ε) :
    Option String → UUIDVal × Option ε
  | some s => fromStringFn s
  | none => (nilUUID, none)

/-! ## Lemmas about the map model -/

theorem lookupA_insertA {α : Type} (k k' : String) (v : α) (l : List (String × α)) :
    lookupA k' (insertA k v l) = if k = k' then some v else lookupA k' l := by
  induction l with
  | nil => simp [insertA, lookupA]
  | cons hd tl ih =>
    obtain ⟨k0, v0⟩ := hd
    by_cases h0 : k0 = k
    · subst h0
      by_cases h1 : k0 = k'
      · subst h1; simp [insertA, lookupA]
      · simp [insertA, lookupA, h1]
    · by_cases h1 : k0 = k'
      · subst h1
        have h2 : ¬k = k0 := fun h => h0 h.symm
        simp [insertA, lookupA, h0, h2]
      · simp [insertA, lookupA, h0, h1, ih]

theorem mem_keysA_insertA {α : Type} (n k : String) (v : α) (l : List (String × α)) :
    n ∈ keysA (insertA k v l) ↔ n = k ∨ n ∈ keysA l := by
  induction l with
  | nil => simp [insertA, keysA]
  | cons hd tl ih =>
    obtain ⟨k0, v0⟩ := hd
    by_cases h0 : k0 = k
    · subst h0
      rw [show insertA k0 v ((k0, v0) :: tl) = (k0, v) :: tl from by simp [insertA]]
      simp only [keysA, List.map_cons, List.mem_cons]
      tauto
    · simp only [insertA, if_neg h0, keysA, List.map_cons, List.mem_cons]
      rw [show (List.map Prod.fst (insertA k v tl) : List String) = keysA (insertA k v tl) from rfl,
        ih]
      tauto

theorem mem_keysA_of_lookupA {α : Type} (k : String) (v : α) (l : List (String × α))
    (h : lookupA k l = some v) : k ∈ keysA l := by
  induction l with
  | nil => simp [lookupA] at h
  | cons hd tl ih =>
    obtain ⟨k0, v0⟩ := hd
    by_cases h0 : k0 = k
    · subst h0; simp [keysA]
    · rw [lookupA, if_neg h0] at h
      simp [keysA]
      exact Or.inr (by simpa [keysA] using ih h)

theorem lookupA_eq_none_of_not_mem {α : Type} (k : String) (l : List (String × α))
    (h : k ∉ keysA l) : lookupA k l = none := by
  induction l with
  | nil => rfl
  | cons hd tl ih =>
    obtain ⟨k0, v0⟩ := hd
    simp [keysA] at h
    rw [lookupA, if_neg (fun he => h.1 he.symm)]
    exact ih (by simpa [keysA] using h.2)

theorem mem_insertName (n k : String) (l : List String) :
    n ∈ insertName k l ↔ n = k ∨ n ∈ l := by
  unfold insertName
  by_cases h : k ∈ l
  · rw [if_pos h]
    constructor
    · exact Or.inr
    · rintro (rfl | hm)
      · exact h
      · exact hm
  · rw [if_neg h]
    simp [List.mem_append]
    tauto

/-! ## Claim C2: the Identifier tag-type table -/

/-- Case analysis of the `Identifier` storage-type switch over an arbitrary
normalized tag type. -/
theorem identifierBase_cases (s : String) :
    (s ∈ ["uuid", "text", "char", "array", "cidr", "inet", "macaddr"] →
      identifierBase s = Except.ok "*string")
    ∧ (s ∈ ["smallint", "integer", "bigint", "numeric", "smallserial", "serial", "bigserial"] →
      identifierBase s = Except.ok "*int64")
    ∧ (s ∈ ["jsonb", "bytea"] → identifierBase s = Except.ok "[]byte")
    ∧ (s = "" → identifierBase s = Except.ok "interface\x7b\x7d")
    ∧ (s ∉ ["uuid", "text", "char", "array", "cidr", "inet", "macaddr"] →
       s ∉ ["smallint", "integer", "bigint", "numeric", "smallserial", "serial", "bigserial"] →
       s ∉ ["jsonb", "bytea"] → s ≠ "" →
      identifierBase s = Except.error ["unknown tag type of atlas.rpc.Identifier"]) := by
  refine ⟨?_, ?_, ?_, ?_, ?_⟩
  · intro h; fin_cases h <;> rfl
  · intro h; fin_cases h <;> rfl
  · intro h; fin_cases h <;> rfl
  · intro h; subst h; rfl
  · intro h1 h2 h3 h4
    unfold identifierBase
    rw [if_neg h1, if_neg h2, if_neg h3, if_neg h4]

/-- The closed set of accepted `Identifier` tag strings as claim C2 states
it (uuid, text, char-variants, array-variants; the integer family with
serial-variants; jsonb, bytea; empty), transcribed from the claim's words. -/
def claimC2Recognized (t : String) : Prop :=
  let tt := toLowerStr t
  tt ∈ ["uuid", "text", "smallint", "integer", "bigint", "numeric", "jsonb", "bytea", ""]
    ∨ strContains tt "char" = true
    ∨ strContains tt "array" = true
    ∨ (tt.data.any fun c => c = '[' ∨ c = ']') = true
    ∨ tt ∈ ["smallserial", "serial", "bigserial"]

instance (t : String) : Decidable (claimC2Recognized t) := by
  unfold claimC2Recognized; infer_instance

/-- C2, counterexample: the declared tag string `"cidr"` is outside the
claim's closed set, so by the claim it must be a fatal configuration error;
but the code maps it to the nullable string storage type and continues (the
source also accepts `cidr`, `inet` and `macaddr` in its `*string` case). -/
theorem c2_identifier_tag_counterexample :
    ¬claimC2Recognized "cidr"
    ∧ identifierStorage (some { typ := some "cidr" }) = Except.ok "*string"
    ∧ classifyField initCfg []
        { goName := "Id", desc := FieldDesc.message "atlas.rpc.Identifier",
          opts := some { tag := some { typ := some "cidr" } } } =
      FieldRes.keep "*string" { tag := some { typ := some "cidr" } } :=
  ⟨by decide, rfl, rfl⟩

/-- C2, amended: for every `Identifier` field the storage type is selected
from the declared tag string case-insensitively — uuid, text, cidr, inet,
macaddr, char-variants and array-variants map to nullable string; smallint,
integer, bigint, numeric and the serial-variants map to nullable 64-bit
integer; jsonb and bytea map to a byte sequence; an unspecified tag maps to
an opaque untyped value; every other tag string is a fatal configuration
error — and a not-null or primary-key tag strips the nullable wrapper. -/
theorem c2_identifier_tag_table_amended (tag : Option GormTag) :
    (identifierTType (tagGetType tag) ∈ ["uuid", "text", "char", "array", "cidr", "inet", "macaddr"] →
      identifierStorage tag =
        Except.ok (if tagGetNotNull tag || tagGetPrimaryKey tag then "string" else "*string"))
    ∧ (identifierTType (tagGetType tag) ∈
        ["smallint", "integer", "bigint", "numeric", "smallserial", "serial", "bigserial"] →
      identifierStorage tag =
        Except.ok (if tagGetNotNull tag || tagGetPrimaryKey tag then "int64" else "*int64"))
    ∧ (identifierTType (tagGetType tag) ∈ ["jsonb", "bytea"] →
      identifierStorage tag = Except.ok "[]byte")
    ∧ (identifierTType (tagGetType tag) = "" →
      identifierStorage tag = Except.ok "interface\x7b\x7d")
    ∧ (identifierTType (tagGetType tag) ∉ ["uuid", "text", "char", "array", "cidr", "inet", "macaddr"] →
       identifierTType (tagGetType tag) ∉
         ["smallint", "integer", "bigint", "numeric", "smallserial", "serial", "bigserial"] →
       identifierTType (tagGetType tag) ∉ ["jsonb", "bytea"] →
       identifierTType (tagGetType tag) ≠ "" →
      identifierStorage tag = Except.error ["unknown tag type of atlas.rpc.Identifier"]) := by
  obtain ⟨c1, c2, c3, c4, c5⟩ := identifierBase_cases (identifierTType (tagGetType tag))
  refine ⟨?_, ?_, ?_, ?_, ?_⟩
  · intro h
    unfold identifierStorage
    rw [c1 h]
    cases hb : tagGetNotNull tag || tagGetPrimaryKey tag <;> simp [hb, trimStar]
  · intro h
    unfold identifierStorage
    rw [c2 h]
    cases hb : tagGetNotNull tag || tagGetPrimaryKey tag <;> simp [hb, trimStar]
  · intro h
    unfold identifierStorage
    rw [c3 h]
    cases hb : tagGetNotNull tag || tagGetPrimaryKey tag <;> simp [hb, trimStar]
  · intro h
    unfold identifierStorage
    rw [c4 h]
    cases hb : tagGetNotNull tag || tagGetPrimaryKey tag <;> simp [hb, trimStar]
  · intro h1 h2 h3 h4
    unfold identifierStorage
    rw [c5 h1 h2 h3 h4]

/-- C2, witness: concrete tags exercising the amended table — `"TEXT"` with
not-null (stripped to required string), `"bigserial"` (nullable 64-bit
integer), `"bytea"`, the empty tag, and the unrecognized `"int"` (fatal). -/
theorem c2_identifier_tag_witness :
    identifierStorage (some { typ := some "TEXT", notNull := true }) = Except.ok "string"
    ∧ identifierStorage (some { typ := some "bigserial" }) = Except.ok "*int64"
    ∧ identifierStorage (some { typ := some "bytea" }) = Except.ok "[]byte"
    ∧ identifierStorage none = Except.ok "interface\x7b\x7d"
    ∧ identifierStorage (some { typ := some "int" }) =
        Except.error ["unknown tag type of atlas.rpc.Identifier"] :=
  ⟨(c2_identifier_tag_table_amended (some { typ := some "TEXT", notNull := true })).1 (by decide),
   (c2_identifier_tag_table_amended (some { typ := some "bigserial" })).2.1 (by decide),
   (c2_identifier_tag_table_amended (some { typ := some "bytea" })).2.2.1 (by decide),
   (c2_identifier_tag_table_amended none).2.2.2.1 (by decide),
   (c2_identifier_tag_table_amended (some { typ := some "int" })).2.2.2.2
     (by decide) (by decide) (by decide) (by decide)⟩

/-! ## Claim C5: reference-of validation -/

/-- Classification of a dropped field short-circuits to `skip`. -/
theorem classifyField_drop (cfg : PluginCfg) (ormNames : List String) (f : PField)
    (hd : getDrop f = true) : classifyField cfg ormNames f = FieldRes.skip := by
  unfold classifyField
  simp [show ((f.opts).getD {}).drop = true from hd]

/-- C5, amended: a kept field carrying a `refers_to` annotation is checked
against the message-name registry `p.messages` (which holds every message
seen so far, annotated for generation or not): an unknown name is a fatal
error whose argument list names the field and the target; a known name
records the target as the field's parent origin. -/
theorem c5_reference_of_amended (cfg : PluginCfg) (messages ormNames : List String)
    (typeName : String) (f : PField) (rest : List PField) (orm : OrmableType)
    (t : String) (opts : GormFieldOptions)
    (hc : classifyField cfg ormNames f = FieldRes.keep t opts)
    (hr : getReferenceOf f ≠ "") :
    (getReferenceOf f ∉ messages →
      parseFieldsLoop cfg messages ormNames typeName (f :: rest) orm =
        Except.error ["unknown message type in refers_to: ", getReferenceOf f,
          " in field: ", f.goName, " of type: ", typeName]
      ∧ f.goName ∈ ["unknown message type in refers_to: ", getReferenceOf f,
          " in field: ", f.goName, " of type: ", typeName]
      ∧ getReferenceOf f ∈ ["unknown message type in refers_to: ", getReferenceOf f,
          " in field: ", f.goName, " of type: ", typeName])
    ∧ (getReferenceOf f ∈ messages →
      parseFieldsLoop cfg messages ormNames typeName (f :: rest) orm =
        parseFieldsLoop cfg messages ormNames typeName rest
          { orm with
            fields := insertA f.goName
              { typ := t, opts := some opts, parentOriginName := getReferenceOf f }
              orm.fields }) := by
  constructor
  · intro hm
    refine ⟨?_, by simp, by simp⟩
    rw [parseFieldsLoop]
    simp only [hc]
    rw [if_pos hr, if_neg hm]
  · intro hm
    rw [parseFieldsLoop]
    simp only [hc]
    rw [if_pos hr, if_pos hm]

/-- The field the C5 witness and counterexample use: a plain string field
with `refers_to: "N"`. -/
def c5RefField : PField :=
  { goName := "Ref", desc := FieldDesc.scalar ScalarKind.kstring,
    opts := some { referenceOf := "N" } }

/-- The C5 counterexample input: one file declaring the plain (non-ormable)
message `N` and the ormable message `M` whose field refers to `N`. -/
def c5File : PFile :=
  { messages := [{ name := "N" },
     { name := "M", opts := some { ormable := true }, fields := [c5RefField] }] }

/-- C5, counterexample: the claim demands a fatal error whenever the
`refers_to` target is not a *registered* (generation-annotated) type; but
naming the known yet non-ormable message `N` succeeds — the run completes,
`N` is not among the registered ormable types, and the field's parent origin
is recorded as `N`. -/
theorem c5_reference_of_counterexample :
    isOkE (generateModel initCfg [c5File]) = true
    ∧ "N" ∉ registeredOrmableNames (generateModel initCfg [c5File])
    ∧ lookupA "Ref" (ormFieldsOf (generateModel initCfg [c5File]) "M") =
        some
          { typ := "string", opts := some { referenceOf := "N" },
            parentOriginName := "N" } :=
  ⟨rfl, by decide, rfl⟩

/-- C5, witness: the amended theorem applied to the concrete field — with
`"N"` absent the loop fails naming the field and target, with `"N"` present
it records the parent origin. -/
theorem c5_reference_of_witness :
    classifyField initCfg [] c5RefField = FieldRes.keep "string" { referenceOf := "N" }
    ∧ getReferenceOf c5RefField ≠ ""
    ∧ getReferenceOf c5RefField ∉ ([] : List String)
    ∧ getReferenceOf c5RefField ∈ ["N"]
    ∧ parseFieldsLoop initCfg [] [] "M" [c5RefField] { originName := "M" } =
        Except.error ["unknown message type in refers_to: ", "N",
          " in field: ", "Ref", " of type: ", "M"]
    ∧ parseFieldsLoop initCfg ["N"] [] "M" [c5RefField] { originName := "M" } =
        Except.ok
          { originName := "M",
            fields := [("Ref",
              { typ := "string", opts := some { referenceOf := "N" },
                parentOriginName := "N" })] } := by
  refine ⟨rfl, by decide, by decide, by decide, ?_, ?_⟩
  · have h := (c5_reference_of_amended initCfg [] [] "M" c5RefField [] { originName := "M" }
      "string" { referenceOf := "N" } rfl (by decide)).1 (by decide)
    exact h.1
  · have h := (c5_reference_of_amended initCfg ["N"] [] "M" c5RefField [] { originName := "M" }
      "string" { referenceOf := "N" } rfl (by decide)).2 (by decide)
    rw [h]
    rfl

/-! ## Claim C7: repeated scalars under the engine selector -/

/-- C7: under the postgres engine a repeated bool / float64 / int64 / string
field is kept as the corresponding pq array type with column type hint
`bool[]` / `float[]` / `integer[]` / `text[]`; every other repeated scalar,
and every repeated scalar under a non-postgres engine, is silently skipped
(no field recorded, no error).  The hypothesis `hno` states that no ormable
type is named like a Go slice type, which holds for every real input since
proto message names cannot contain brackets. -/
theorem c7_repeated_scalar (cfg : PluginCfg) (ormNames : List String) (f : PField)
    (k : ScalarKind) (hk : f.desc = FieldDesc.scalar k) (hl : f.isList = true)
    (hnd : getDrop f = false) (hno : fieldTypeOf f ∉ ormNames) :
    (cfg.dbEngine = Engine.postgres →
      (k = ScalarKind.kbool →
        classifyField cfg ormNames f = FieldRes.keep "pq.BoolArray" (optsWithTagType f "bool[]"))
      ∧ (k = ScalarKind.kdouble →
        classifyField cfg ormNames f = FieldRes.keep "pq.Float64Array" (optsWithTagType f "float[]"))
      ∧ (k = ScalarKind.kint64 →
        classifyField cfg ormNames f = FieldRes.keep "pq.Int64Array" (optsWithTagType f "integer[]"))
      ∧ (k = ScalarKind.kstring →
        classifyField cfg ormNames f = FieldRes.keep "pq.StringArray" (optsWithTagType f "text[]"))
      ∧ (k ≠ ScalarKind.kbool → k ≠ ScalarKind.kdouble → k ≠ ScalarKind.kint64 →
         k ≠ ScalarKind.kstring → classifyField cfg ormNames f = FieldRes.skip))
    ∧ (cfg.dbEngine ≠ Engine.postgres → classifyField cfg ormNames f = FieldRes.skip) := by
  obtain ⟨gn, il, ds, op⟩ := f
  simp only [PField.desc] at hk
  simp only [PField.isList] at hl
  subst hk; subst hl
  have hd' : ((op).getD {}).drop = false := hnd
  constructor
  · intro hpg
    obtain ⟨eng, se⟩ := cfg
    simp only [PluginCfg.dbEngine] at hpg
    subst hpg
    refine ⟨?_, ?_, ?_, ?_, ?_⟩
    · rintro rfl
      simp [classifyField, hd', fieldTypeOf, scalarGoType, isAbleToMakePQArray, optsWithTagType]
    · rintro rfl
      simp [classifyField, hd', fieldTypeOf, scalarGoType, isAbleToMakePQArray, optsWithTagType]
    · rintro rfl
      simp [classifyField, hd', fieldTypeOf, scalarGoType, isAbleToMakePQArray, optsWithTagType]
    · rintro rfl
      simp [classifyField, hd', fieldTypeOf, scalarGoType, isAbleToMakePQArray, optsWithTagType]
    · intro h1 h2 h3 h4
      cases k <;> first
        | (exact absurd rfl h1)
        | (exact absurd rfl h2)
        | (exact absurd rfl h3)
        | (exact absurd rfl h4)
        | (simp [fieldTypeOf, scalarGoType] at hno;
           simp [classifyField, hd', fieldTypeOf, scalarGoType, isAbleToMakePQArray,
             isMessageField, isEnumField, hno])
  · intro hne
    have hne' : ∀ t : String, ¬(cfg.dbEngine = Engine.postgres ∧ isAbleToMakePQArray t) :=
      fun _ h => hne h.1
    cases k <;>
      (simp [fieldTypeOf, scalarGoType] at hno;
       simp [classifyField, hd', fieldTypeOf, scalarGoType, isMessageField,
         isEnumField, hne', hno])

/-- A repeated bool field (C7 witness input). -/
def c7BoolField : PField :=
  { goName := "Bs", isList := true, desc := FieldDesc.scalar ScalarKind.kbool }

/-- A repeated int32 field (C7 witness input). -/
def c7Int32Field : PField :=
  { goName := "Is", isList := true, desc := FieldDesc.scalar ScalarKind.kint32 }

/-- C7, witness: a repeated bool resolves to the pq bool array with hint
`bool[]` under postgres, is skipped under the unset engine, and a repeated
int32 is skipped even under postgres. -/
theorem c7_repeated_scalar_witness :
    getDrop c7BoolField = false
    ∧ fieldTypeOf c7BoolField ∉ ([] : List String)
    ∧ classifyField initCfg [] c7BoolField =
        FieldRes.keep "pq.BoolArray" (optsWithTagType c7BoolField "bool[]")
    ∧ classifyField { dbEngine := Engine.unset, stringEnums := true } [] c7BoolField =
        FieldRes.skip
    ∧ classifyField initCfg [] c7Int32Field = FieldRes.skip :=
  ⟨rfl, by decide,
   ((c7_repeated_scalar initCfg [] c7BoolField ScalarKind.kbool rfl rfl rfl (by decide)).1
     rfl).1 rfl,
   (c7_repeated_scalar { dbEngine := Engine.unset, stringEnums := true } [] c7BoolField
     ScalarKind.kbool rfl rfl rfl (by decide)).2 (by decide),
   ((c7_repeated_scalar initCfg [] c7Int32Field ScalarKind.kint32 rfl rfl rfl
     (by decide)).1 rfl).2.2.2.2 (by decide) (by decide) (by decide) (by decide)⟩

/-! ## Claim C3: before-hook errors stop the conversion -/

/-- C3: in both directions, when the type supplies a before-hook and that
hook reports an error on the zero-value output, the conversion returns the
hook's partially built result paired with that error — for every choice of
after-hook and of middle steps, so the after-hook and the field transforms
are never run. -/
theorem c3_before_hook_error {T E : Type} (preFn : T → T × Option E) (init t0 : T) (e : E)
    (h : preFn init = (t0, some e))
    (post post' : Option (T → T × Option E))
    (fieldSteps acctSteps orderedSteps fieldSteps' : List (T → T × Option E)) :
    toOrmSem (some preFn) post fieldSteps acctSteps orderedSteps init = (t0, some e)
    ∧ toPbSem (some preFn) post' fieldSteps' init = (t0, some e) := by
  constructor
  · unfold toOrmSem convertWithHooks
    simp only [h]
  · unfold toPbSem convertWithHooks
    simp only [h]

/-- C3, witness: a concrete before-hook that increments the state and
reports error 7 — both directions return the incremented state and error 7
regardless of the supplied after-hook and steps. -/
theorem c3_before_hook_error_witness :
    (fun n : Nat => (n + 1, some 7)) 0 = ((1 : Nat), some (7 : Nat))
    ∧ toOrmSem (some fun n : Nat => (n + 1, some 7)) (some fun n => (n + 5, none))
        [fun n => (n + 9, none)] [] [] 0 = ((1 : Nat), some (7 : Nat))
    ∧ toPbSem (some fun n : Nat => (n + 1, some 7)) none [] 0 = ((1 : Nat), some (7 : Nat)) :=
  ⟨rfl,
   (c3_before_hook_error (fun n : Nat => (n + 1, some 7)) 0 1 7 rfl
     (some fun n => (n + 5, none)) none [fun n => (n + 9, none)] [] [] []).1,
   (c3_before_hook_error (fun n : Nat => (n + 1, some 7)) 0 1 7 rfl
     (some fun n => (n + 5, none)) none [fun n => (n + 9, none)] [] [] []).2⟩

/-! ## Claim C6: repeated registered-message conversion -/

theorem convertRepeatedLoop_ok {α β ε : Type} (conv : α → Except ε β) (l : List (Option α))
    (hok : ∀ v, some v ∈ l → ∃ b, conv v = Except.ok b) (acc : List (Option β)) :
    convertRepeatedLoop conv l acc =
      (acc ++ l.map (fun o => o.bind fun v => exceptToOption (conv v)), none) := by
  induction l generalizing acc with
  | nil => simp [convertRepeatedLoop]
  | cons hd tl ih =>
    cases hd with
    | none =>
      rw [convertRepeatedLoop, ih (fun v hv => hok v (List.mem_cons_of_mem _ hv))]
      simp
    | some v =>
      obtain ⟨b, hb⟩ := hok v (List.mem_cons_self _ _)
      simp only [convertRepeatedLoop, hb]
      rw [ih (fun w hw => hok w (List.mem_cons_of_mem _ hw))]
      simp [exceptToOption, hb]

theorem convertRepeatedLoop_err {α β ε : Type} (conv : α → Except ε β)
    (l₁ : List (Option α)) (v : α) (e : ε) (l₂ : List (Option α))
    (hok : ∀ w, some w ∈ l₁ → ∃ b, conv w = Except.ok b) (hv : conv v = Except.error e)
    (acc : List (Option β)) :
    convertRepeatedLoop conv (l₁ ++ some v :: l₂) acc =
      (acc ++ l₁.map (fun o => o.bind fun w => exceptToOption (conv w)), some e) := by
  induction l₁ generalizing acc with
  | nil => simp [convertRepeatedLoop, hv]
  | cons hd tl ih =>
    cases hd with
    | none =>
      rw [List.cons_append, convertRepeatedLoop,
        ih (fun w hw => hok w (List.mem_cons_of_mem _ hw))]
      simp
    | some w =>
      obtain ⟨b, hb⟩ := hok w (List.mem_cons_self _ _)
      simp only [List.cons_append, convertRepeatedLoop, hb, List.append_eq]
      rw [ih (fun u hu => hok u (List.mem_cons_of_mem _ hu))]
      simp [exceptToOption, hb]

theorem convertRepeatedLoop_allNone {α β ε : Type} (conv : α → Except ε β)
    (l : List (Option α)) (h : ∀ o ∈ l, o = none) (acc : List (Option β)) :
    convertRepeatedLoop conv l acc = (acc ++ l.map (fun _ => none), none) := by
  induction l generalizing acc with
  | nil => simp [convertRepeatedLoop]
  | cons hd tl ih =>
    have hh := h hd (List.mem_cons_self _ _)
    subst hh
    rw [convertRepeatedLoop, ih (fun o ho => h o (List.mem_cons_of_mem _ ho))]
    simp

/-- C6: the emitted loop for a repeated registered-message field converts
the elements one by one in input order — when every non-nil element
converts, the output is the element-wise image (nil elements passing through
as nil); the first element whose conversion fails aborts the whole call with
the partial output and that element's error; and on an all-nil list the
result does not depend on the element converter at all (no recursive call is
made for nil elements). -/
theorem c6_repeated_ormable {α β ε : Type} (conv : α → Except ε β) (l : List (Option α)) :
    ((∀ v, some v ∈ l → ∃ b, conv v = Except.ok b) →
      convertRepeatedOrmable conv l =
        (l.map (fun o => o.bind fun v => exceptToOption (conv v)), none))
    ∧ (∀ (l₁ : List (Option α)) (v : α) (e : ε) (l₂ : List (Option α)),
        l = l₁ ++ some v :: l₂ →
        (∀ w, some w ∈ l₁ → ∃ b, conv w = Except.ok b) →
        conv v = Except.error e →
        convertRepeatedOrmable conv l =
          (l₁.map (fun o => o.bind fun w => exceptToOption (conv w)), some e))
    ∧ ((∀ o ∈ l, o = none) →
      ∀ conv' : α → Except ε β,
        convertRepeatedOrmable conv l = convertRepeatedOrmable conv' l) := by
  refine ⟨?_, ?_, ?_⟩
  · intro hok
    unfold convertRepeatedOrmable
    rw [convertRepeatedLoop_ok conv l hok []]
    simp
  · intro l₁ v e l₂ hsplit hok hv
    subst hsplit
    unfold convertRepeatedOrmable
    rw [convertRepeatedLoop_err conv l₁ v e l₂ hok hv []]
    simp
  · intro hall conv'
    unfold convertRepeatedOrmable
    rw [convertRepeatedLoop_allNone conv l hall [], convertRepeatedLoop_allNone conv' l hall []]

/-- The element converter of the C6 witness: 0 fails with error 9, anything
else converts to its successor. -/
def c6Conv : Nat → Except Nat Nat :=
  fun n => if n = 0 then Except.error 9 else Except.ok (n + 1)

/-- C6, witness: on `[some 1, none, some 2]` every element converts (nil
passes through); on `[some 1, some 0]` the failing second element aborts
with error 9 after the first was converted; on `[none, none]` the result is
the same under the failing-everywhere converter. -/
theorem c6_repeated_ormable_witness :
    convertRepeatedOrmable c6Conv [some 1, none, some 2] = ([some 2, none, some 3], none)
    ∧ convertRepeatedOrmable c6Conv [some 1, some 0] = ([some 2], some 9)
    ∧ (∀ o ∈ ([none, none] : List (Option Nat)), o = none)
    ∧ convertRepeatedOrmable c6Conv [none, none] =
        convertRepeatedOrmable (fun _ : Nat => (Except.error 5 : Except Nat Nat)) [none, none] := by
  refine ⟨?_, ?_, by decide, ?_⟩
  · have h := (c6_repeated_ormable c6Conv [some 1, none, some 2]).1 ?_
    · simpa [c6Conv, exceptToOption] using h
    · intro v hv
      simp at hv
      rcases hv with rfl | rfl
      · exact ⟨2, rfl⟩
      · exact ⟨3, rfl⟩
  · have h := (c6_repeated_ormable c6Conv [some 1, some 0]).2.1 [some 1] 0 9 [] rfl ?_ rfl
    · simpa [c6Conv, exceptToOption] using h
    · intro w hw
      simp at hw
      subst hw
      exact ⟨2, rfl⟩
  · exact (c6_repeated_ormable c6Conv [none, none]).2.2 (by decide) _

/-! ## Claim C10: required UUID conversion -/

/-- C10: for a required (non-wrapper) UUID field, wire→storage conversion of
a nil wire value assigns the all-zero `uuid.Nil` constant and reports no
error (the remaining conversion steps continue from it); a non-nil wire
value is parsed from its string form, a parse failure aborting the
conversion with that error before any remaining step runs. -/
theorem c10_required_uuid {ε : Type} (fromStringFn : String → UUIDVal × Option ε) :
    (uuidRequiredToOrm fromStringFn none = (nilUUID, none))
    ∧ (∀ (rest : List (UUIDVal → UUIDVal × Option ε)) (t0 : UUIDVal),
        runConvSteps ((fun _ => uuidRequiredToOrm fromStringFn none) :: rest) t0 =
          runConvSteps rest nilUUID)
    ∧ (∀ s u e, fromStringFn s = (u, some e) →
        uuidRequiredToOrm fromStringFn (some s) = (u, some e)
        ∧ ∀ (rest : List (UUIDVal → UUIDVal × Option ε)) (t0 : UUIDVal),
            runConvSteps ((fun _ => uuidRequiredToOrm fromStringFn (some s)) :: rest) t0 =
              (u, some e))
    ∧ (∀ s u, fromStringFn s = (u, none) →
        uuidRequiredToOrm fromStringFn (some s) = (u, none)) := by
  refine ⟨rfl, ?_, ?_, ?_⟩
  · intro rest t0
    simp only [runConvSteps, uuidRequiredToOrm]
  · intro s u e h
    have h1 : uuidRequiredToOrm fromStringFn (some s) = (u, some e) := by
      simpa [uuidRequiredToOrm] using h
    refine ⟨h1, fun rest t0 => ?_⟩
    rw [runConvSteps, h1]
  · intro s u h
    simpa [uuidRequiredToOrm] using h

/-- The parse function of the C10 witness: `"ok"` parses to UUID 1,
everything else fails with error 3. -/
def c10Parse : String → UUIDVal × Option Nat :=
  fun s => if s = "ok" then ({ val := 1 }, none) else ({ val := 0 }, some 3)

/-- C10, witness: a nil wire value yields `uuid.Nil` with no error and the
following step still runs; the failing string aborts with error 3; the
parsing string assigns UUID 1. -/
theorem c10_required_uuid_witness :
    uuidRequiredToOrm c10Parse none = (nilUUID, none)
    ∧ runConvSteps [fun _ => uuidRequiredToOrm c10Parse none,
        fun u => ({ val := u.val + 5 }, none)] { val := 9 } = ({ val := 5 }, none)
    ∧ c10Parse "bad" = ({ val := 0 }, some 3)
    ∧ runConvSteps [fun _ => uuidRequiredToOrm c10Parse (some "bad"),
        fun u => ({ val := u.val + 5 }, none)] { val := 9 } = ({ val := 0 }, some 3)
    ∧ uuidRequiredToOrm c10Parse (some "ok") = ({ val := 1 }, none) := by
  have h := c10_required_uuid c10Parse
  refine ⟨h.1, ?_, rfl, ?_, h.2.2.2 "ok" { val := 1 } rfl⟩
  · rw [h.2.1 [fun u => ({ val := u.val + 5 }, none)] { val := 9 }]
    rfl
  · rw [(h.2.2.1 "bad" { val := 0 } 3 rfl).2 [fun u => ({ val := u.val + 5 }, none)] { val := 9 }]

/-! ## Claim C4: ordered has-many position re-stamping -/

theorem stampFrom_length (i : Nat) (l : List StampChild) :
    (stampFrom i l).length = l.length := by
  induction l generalizing i with
  | nil => rfl
  | cons c rest ih => simp [stampFrom, ih]

theorem stampFrom_get (l : List StampChild) (j i : Nat) (hi : i < (stampFrom j l).length) :
    ((stampFrom j l).get ⟨i, hi⟩).pos = j + i := by
  induction l generalizing j i with
  | nil => simp [stampFrom] at hi
  | cons c rest ih =>
    cases i with
    | zero => simp [stampFrom]
    | succ i' =>
      have hi' : i' < (stampFrom (j + 1) rest).length := by
        simpa [stampFrom] using hi
      have := ih (j + 1) i' hi'
      simp only [stampFrom, List.get_cons_succ]
      rw [this]
      omega

theorem stampFrom_map_data (i : Nat) (l : List StampChild) :
    (stampFrom i l).map (fun c => c.data) = l.map (fun c => c.data) := by
  induction l generalizing i with
  | nil => rfl
  | cons c rest ih => simp [stampFrom, ih]

/-- Every element of `orderedStampSteps` is an ordered-stamp descriptor for
a field of the resolved type whose has-many options declare a non-empty
position field. -/
theorem mem_orderedStampSteps (orm : OrmableType) (s : ConvStep)
    (h : s ∈ orderedStampSteps orm) :
    ∃ n fld, lookupA n orm.fields = some fld
      ∧ getHasManyPosition fld.opts ≠ ""
      ∧ s = ConvStep.orderedStamp n (getHasManyPosition fld.opts) := by
  obtain ⟨n, hmem, heq⟩ := List.mem_filterMap.mp h
  cases hl : lookupA n orm.fields with
  | none => rw [hl] at heq; cases heq
  | some fld =>
    rw [hl] at heq
    simp only [] at heq
    by_cases hp : getHasManyPosition fld.opts = ""
    · rw [if_pos hp] at heq; cases heq
    · rw [if_neg hp] at heq
      exact ⟨n, fld, hl, hp, (Option.some_inj.mp heq).symm⟩

/-- Conversely, every field with a declared position field yields its
ordered-stamp descriptor. -/
theorem orderedStamp_mem_orderedStampSteps (orm : OrmableType) (fn : String) (fld : OrmField)
    (hf : lookupA fn orm.fields = some fld) (hp : getHasManyPosition fld.opts ≠ "") :
    ConvStep.orderedStamp fn (getHasManyPosition fld.opts) ∈ orderedStampSteps orm := by
  apply List.mem_filterMap.mpr
  refine ⟨fn, ?_, ?_⟩
  · exact (List.perm_insertionSort _ _).mem_iff.mpr (mem_keysA_of_lookupA _ _ _ hf)
  · rw [hf]
    simp [hp]

/-- C4: the ordered has-many re-stamping — (a) the emitted loop overwrites
every child's position field with its index in input order (0, 1, 2, …)
regardless of any prior value, leaving the other child data unchanged;
(b) the emitted `ToORM` splits into a prefix holding all field transforms
and a suffix holding the stamping loops, so stamping runs after all fields
are converted, and the field with the declared position field contributes
its stamping loop; (c) the emitted `ToPB` contains no stamping loop. -/
theorem c4_ordered_has_many (cfg : PluginCfg) (ormNames : List String) (orm : OrmableType)
    (msg : PMessage) (fn : String) (fld : OrmField)
    (hf : lookupA fn orm.fields = some fld)
    (hp : getHasManyPosition fld.opts ≠ "") :
    (∀ l : List StampChild,
      (stampStep l).length = l.length
      ∧ (∀ i (hi : i < (stampStep l).length), ((stampStep l).get ⟨i, hi⟩).pos = i)
      ∧ (stampStep l).map (fun c => c.data) = l.map (fun c => c.data))
    ∧ (∃ l₁ l₂, emitToORM cfg ormNames orm msg = l₁ ++ l₂
        ∧ (∀ s ∈ l₁, s.isOrdered = false)
        ∧ (∀ s ∈ l₂, s.isFieldConv = false)
        ∧ ConvStep.orderedStamp fn (getHasManyPosition fld.opts) ∈ l₂)
    ∧ (∀ s ∈ emitToPB cfg ormNames msg, s.isOrdered = false) := by
  refine ⟨?_, ?_, ?_⟩
  · intro l
    refine ⟨stampFrom_length 0 l, ?_, stampFrom_map_data 0 l⟩
    intro i hi
    have := stampFrom_get l 0 i hi
    simpa using this
  · refine ⟨[ConvStep.beforeHook]
        ++ (msg.fields.filter (fun f => getDrop f = false)).map
            (fun f => ConvStep.fieldConv f.goName (convKindOf cfg ormNames f))
        ++ (if (getMessageOptions msg).multiAccount then [ConvStep.accountID] else []),
      orderedStampSteps orm ++ [ConvStep.afterHook], ?_, ?_, ?_, ?_⟩
    · simp [emitToORM]
    · intro s hs
      rcases List.mem_append.mp hs with hs | hs
      · rcases List.mem_append.mp hs with hs | hs
        · simp at hs
          subst hs
          rfl
        · obtain ⟨f, _, hf'⟩ := List.mem_map.mp hs
          rw [← hf']
          rfl
      · by_cases hma : (getMessageOptions msg).multiAccount
        · rw [if_pos hma] at hs
          simp at hs
          subst hs
          rfl
        · rw [if_neg hma] at hs
          simp at hs
    · intro s hs
      rcases List.mem_append.mp hs with hs | hs
      · obtain ⟨n, fld', _, _, heq⟩ := mem_orderedStampSteps orm s hs
        rw [heq]
        rfl
      · simp at hs
        subst hs
        rfl
    · exact List.mem_append_left _ (orderedStamp_mem_orderedStampSteps orm fn fld hf hp)
  · intro s hs
    rw [emitToPB] at hs
    rcases List.mem_append.mp hs with hs | hs
    · rcases List.mem_append.mp hs with hs | hs
      · simp at hs
        subst hs
        rfl
      · obtain ⟨f, _, hf'⟩ := List.mem_map.mp hs
        rw [← hf']
        rfl
    · simp at hs
      subst hs
      rfl

/-- The resolved type of the C4 witness: a parent whose `Children` field
has an ordered has-many association with position field `Position`. -/
def c4Orm : OrmableType :=
  { originName := "P", name := "PORM",
    fields := [("Children",
      { typ := "Child",
        opts := some { hasMany := some { positionField := "Position" } } })] }

/-- The message of the C4 witness. -/
def c4Msg : PMessage :=
  { name := "P", opts := some { ormable := true } }

/-- C4, witness: three children with arbitrary pre-existing position values
are re-stamped 0, 1, 2 with their data preserved; the stamping loop for
`Children` is emitted in `ToORM`; `ToPB` contains no stamping loop. -/
theorem c4_ordered_has_many_witness :
    lookupA "Children" c4Orm.fields =
      some { typ := "Child", opts := some { hasMany := some { positionField := "Position" } } }
    ∧ getHasManyPosition (some { hasMany := some { positionField := "Position" } } :
        Option GormFieldOptions) ≠ ""
    ∧ (stampStep [{ pos := 7, data := 10 }, { pos := 7, data := 11 }, { pos := 0, data := 12 }]).map
        (fun c => c.data) =
        ([{ pos := 7, data := 10 }, { pos := 7, data := 11 }, { pos := 0, data := 12 }] :
          List StampChild).map (fun c => c.data)
    ∧ ConvStep.orderedStamp "Children" "Position" ∈ emitToORM initCfg ["Child"] c4Orm c4Msg
    ∧ (∀ s ∈ emitToPB initCfg ["Child"] c4Msg, s.isOrdered = false) := by
  have h := c4_ordered_has_many initCfg ["Child"] c4Orm c4Msg "Children"
    { typ := "Child", opts := some { hasMany := some { positionField := "Position" } } }
    rfl (by decide)
  refine ⟨rfl, by decide, ?_, ?_, h.2.2⟩
  · exact (h.1 [{ pos := 7, data := 10 }, { pos := 7, data := 11 }, { pos := 0, data := 12 }]).2.2
  · obtain ⟨l₁, l₂, heq, _, _, hm⟩ := h.2.1
    rw [heq]
    exact List.mem_append_right _ hm

/-! ## Claim C1: registration across input files -/

/-- Membership in the message-name registry after one file's registration
loop. -/
theorem mem_messages_registerMsgs (ms : List PMessage) (σ : GenState) (n : String) :
    n ∈ (registerMsgs σ ms).messages ↔
      n ∈ σ.messages ∨ ∃ m, m ∈ ms ∧ m.isMapEntry = false ∧ m.name = n := by
  induction ms generalizing σ with
  | nil => simp [registerMsgs]
  | cons m rest ih =>
    rw [registerMsgs]
    by_cases hm : m.isMapEntry
    · rw [if_pos hm, ih]
      constructor
      · rintro (h | ⟨m', hm', h1, h2⟩)
        · exact Or.inl h
        · exact Or.inr ⟨m', List.mem_cons_of_mem _ hm', h1, h2⟩
      · rintro (h | ⟨m', hm', h1, h2⟩)
        · exact Or.inl h
        · rcases List.mem_cons.mp hm' with rfl | hm''
          · rw [hm] at h1; cases h1
          · exact Or.inr ⟨m', hm'', h1, h2⟩
    · rw [if_neg hm]
      have hmsg :
          (if (getMessageOptions m).ormable ∧
              (lookupA m.name ({ σ with messages := insertName m.name σ.messages} :
                GenState).ormables).isNone then
            { { σ with messages := insertName m.name σ.messages} with
              ormables := insertA m.name (newOrmableType m)
                ({ σ with messages := insertName m.name σ.messages} : GenState).ormables }
          else { σ with messages := insertName m.name σ.messages}).messages =
          insertName m.name σ.messages := by
        split <;> rfl
      rw [ih, hmsg, mem_insertName]
      constructor
      · rintro ((rfl | h) | ⟨m', hm', h1, h2⟩)
        · exact Or.inr ⟨m, List.mem_cons_self _ _, Bool.not_eq_true _ ▸ (by simpa using hm), rfl⟩
        · exact Or.inl h
        · exact Or.inr ⟨m', List.mem_cons_of_mem _ hm', h1, h2⟩
      · rintro (h | ⟨m', hm', h1, h2⟩)
        · exact Or.inl (Or.inr h)
        · rcases List.mem_cons.mp hm' with rfl | hm''
          · exact Or.inl (Or.inl h2.symm)
          · exact Or.inr ⟨m', hm'', h1, h2⟩

/-- Membership in the ormable registry after one file's registration
loop. -/
theorem mem_ormables_registerMsgs (ms : List PMessage) (σ : GenState) (n : String) :
    n ∈ keysA (registerMsgs σ ms).ormables ↔
      n ∈ keysA σ.ormables ∨
        ∃ m, m ∈ ms ∧ m.isMapEntry = false ∧ (getMessageOptions m).ormable = true ∧ m.name = n := by
  induction ms generalizing σ with
  | nil => simp [registerMsgs]
  | cons m rest ih =>
    rw [registerMsgs]
    by_cases hm : m.isMapEntry
    · rw [if_pos hm, ih]
      constructor
      · rintro (h | ⟨m', hm', h1, h2, h3⟩)
        · exact Or.inl h
        · exact Or.inr ⟨m', List.mem_cons_of_mem _ hm', h1, h2, h3⟩
      · rintro (h | ⟨m', hm', h1, h2, h3⟩)
        · exact Or.inl h
        · rcases List.mem_cons.mp hm' with rfl | hm''
          · rw [hm] at h1; cases h1
          · exact Or.inr ⟨m', hm'', h1, h2, h3⟩
    · rw [if_neg hm, ih]
      have hm' : m.isMapEntry = false := by simpa using hm
      by_cases hc : (getMessageOptions m).ormable ∧
          (lookupA m.name ({ σ with messages := insertName m.name σ.messages} :
            GenState).ormables).isNone
      · rw [if_pos hc]
        simp only [mem_keysA_insertA]
        constructor
        · rintro ((rfl | h) | ⟨m', hm'', h1, h2, h3⟩)
          · exact Or.inr ⟨m, List.mem_cons_self _ _, hm', hc.1, rfl⟩
          · exact Or.inl h
          · exact Or.inr ⟨m', List.mem_cons_of_mem _ hm'', h1, h2, h3⟩
        · rintro (h | ⟨m', hm'', h1, h2, h3⟩)
          · exact Or.inl (Or.inr h)
          · rcases List.mem_cons.mp hm'' with rfl | hm3
            · exact Or.inl (Or.inl h3.symm)
            · exact Or.inr ⟨m', hm3, h1, h2, h3⟩
      · rw [if_neg hc]
        constructor
        · rintro (h | ⟨m', hm'', h1, h2, h3⟩)
          · exact Or.inl h
          · exact Or.inr ⟨m', List.mem_cons_of_mem _ hm'', h1, h2, h3⟩
        · rintro (h | ⟨m', hm'', h1, h2, h3⟩)
          · exact Or.inl h
          · rcases List.mem_cons.mp hm'' with rfl | hm3
            · -- m is ormable but not inserted: it must already be registered
              rcases not_and_or.mp hc with hno | hns
              · rw [h2] at hno; cases hno rfl
              · subst h3
                rcases ho : lookupA m'.name σ.ormables with _ | fld
                · rw [show (lookupA m'.name ({ σ with
                      messages := insertName m'.name σ.messages} : GenState).ormables) =
                      lookupA m'.name σ.ormables from rfl, ho] at hns
                  simp at hns
                · exact Or.inl (mem_keysA_of_lookupA _ _ _ ho)
            · exact Or.inr ⟨m', hm3, h1, h2, h3⟩

/-- Resolution of one file's messages does not change the message-name
registry, nor the key set of the ormable registry. -/
theorem resolveMsgs_preserves (cfg : PluginCfg) (ms : List PMessage) (σ σ' : GenState)
    (h : resolveMsgs cfg σ ms = Except.ok σ') :
    σ'.messages = σ.messages ∧ ∀ n, n ∈ keysA σ'.ormables ↔ n ∈ keysA σ.ormables := by
  induction ms generalizing σ with
  | nil =>
    rw [resolveMsgs] at h
    injection h with h
    subst h
    exact ⟨rfl, fun _ => Iff.rfl⟩
  | cons m rest ih =>
    rw [resolveMsgs] at h
    cases hl : lookupA m.name σ.ormables with
    | none =>
      rw [hl] at h
      exact ih σ h
    | some orm =>
      simp only [hl] at h
      cases hp : parseBasicFields cfg σ.messages (keysA σ.ormables) m orm with
      | error e =>
        rw [hp] at h
        exact Except.noConfusion h
      | ok orm' =>
        rw [hp] at h
        obtain ⟨h1, h2⟩ := ih _ h
        refine ⟨h1, fun n => ?_⟩
        rw [h2 n]
        have hm : m.name ∈ keysA σ.ormables := mem_keysA_of_lookupA _ _ _ hl
        show n ∈ keysA (insertA m.name orm' σ.ormables) ↔ n ∈ keysA σ.ormables
        rw [mem_keysA_insertA]
        constructor
        · rintro (rfl | h)
          · exact hm
          · exact h
        · exact Or.inr

/-- Characterization of the two registries after a successful run of the
per-file pipeline: a name is registered exactly when some earlier state or
some input message contributes it — regardless of where the file sits in
the input order. -/
theorem generateFiles_mem (cfg : PluginCfg) (fs : List PFile) (σ σ' : GenState)
    (h : generateFiles cfg fs σ = Except.ok σ') (n : String) :
    (n ∈ σ'.messages ↔
      n ∈ σ.messages ∨ ∃ file, file ∈ fs ∧ ∃ m, m ∈ file.messages ∧
        m.isMapEntry = false ∧ m.name = n)
    ∧ (n ∈ keysA σ'.ormables ↔
      n ∈ keysA σ.ormables ∨ ∃ file, file ∈ fs ∧ ∃ m, m ∈ file.messages ∧
        m.isMapEntry = false ∧ (getMessageOptions m).ormable = true ∧ m.name = n) := by
  induction fs generalizing σ with
  | nil =>
    rw [generateFiles] at h
    injection h with h
    subst h
    simp
  | cons file rest ih =>
    rw [generateFiles] at h
    cases hr : resolveMsgs cfg (registerMsgs σ file.messages) file.messages with
    | error e => rw [hr] at h; cases h
    | ok σ2 =>
      rw [hr] at h
      obtain ⟨ihm, iho⟩ := ih _ h
      obtain ⟨p1, p2⟩ := resolveMsgs_preserves cfg _ _ _ hr
      constructor
      · rw [ihm, p1, mem_messages_registerMsgs]
        constructor
        · rintro ((h | ⟨m, hm1, hm2, hm3⟩) | ⟨f', hf', hrest⟩)
          · exact Or.inl h
          · exact Or.inr ⟨file, List.mem_cons_self _ _, m, hm1, hm2, hm3⟩
          · exact Or.inr ⟨f', List.mem_cons_of_mem _ hf', hrest⟩
        · rintro (h | ⟨f', hf', m, hm1, hm2, hm3⟩)
          · exact Or.inl (Or.inl h)
          · rcases List.mem_cons.mp hf' with rfl | hf''
            · exact Or.inl (Or.inr ⟨m, hm1, hm2, hm3⟩)
            · exact Or.inr ⟨f', hf'', m, hm1, hm2, hm3⟩
      · rw [iho, p2 n, mem_ormables_registerMsgs]
        constructor
        · rintro ((h | ⟨m, hm1, hm2, hm3, hm4⟩) | ⟨f', hf', hrest⟩)
          · exact Or.inl h
          · exact Or.inr ⟨file, List.mem_cons_self _ _, m, hm1, hm2, hm3, hm4⟩
          · exact Or.inr ⟨f', List.mem_cons_of_mem _ hf', hrest⟩
        · rintro (h | ⟨f', hf', m, hm1, hm2, hm3, hm4⟩)
          · exact Or.inl (Or.inl h)
          · rcases List.mem_cons.mp hf' with rfl | hf''
            · exact Or.inl (Or.inr ⟨m, hm1, hm2, hm3, hm4⟩)
            · exact Or.inr ⟨f', hf'', m, hm1, hm2, hm3, hm4⟩

/-- C1, amended: when two permutations of the input files both complete
without a fatal error, they register exactly the same message names and the
same ormable-type names — registration is idempotent by name and
order-independent in that sense.  (The file-order independence of field
resolution itself fails: see the counterexample.) -/
theorem c1_registration_amended (cfg : PluginCfg) (fs fs' : List PFile) (σ σ' : GenState)
    (hperm : fs.Perm fs')
    (h : generateModel cfg fs = Except.ok σ) (h' : generateModel cfg fs' = Except.ok σ') :
    ∀ n : String,
      (n ∈ σ.messages ↔ n ∈ σ'.messages)
      ∧ (n ∈ keysA σ.ormables ↔ n ∈ keysA σ'.ormables) := by
  intro n
  obtain ⟨hm, ho⟩ := generateFiles_mem cfg fs {} σ h n
  obtain ⟨hm', ho'⟩ := generateFiles_mem cfg fs' {} σ' h' n
  constructor
  · rw [hm, hm']
    simp only [show (({} : GenState)).messages = [] from rfl, List.not_mem_nil, false_or]
    constructor
    · rintro ⟨file, hf, hrest⟩
      exact ⟨file, hperm.mem_iff.mp hf, hrest⟩
    · rintro ⟨file, hf, hrest⟩
      exact ⟨file, hperm.mem_iff.mpr hf, hrest⟩
  · rw [ho, ho']
    simp only [show keysA (({} : GenState)).ormables = [] from rfl, List.not_mem_nil, false_or]
    constructor
    · rintro ⟨file, hf, hrest⟩
      exact ⟨file, hperm.mem_iff.mp hf, hrest⟩
    · rintro ⟨file, hf, hrest⟩
      exact ⟨file, hperm.mem_iff.mpr hf, hrest⟩

/-- The ormable message `M` of the C1 counterexample, whose field refers to
the message `N` defined in the other input file. -/
def c1MsgM : PMessage :=
  { name := "M", opts := some { ormable := true },
    fields := [{ goName := "Ref", desc := FieldDesc.scalar ScalarKind.kstring,
                 opts := some { referenceOf := "N" } }] }

/-- The C1 counterexample file containing `M`. -/
def c1FileA : PFile := { messages := [c1MsgM] }

/-- The C1 counterexample file containing `N`. -/
def c1FileB : PFile := { messages := [{ name := "N" }] }

/-- C1, counterexample: registration and field resolution are interleaved
per file, so a `refers_to` field naming a type defined in a later input
file aborts the run, while the reverse order succeeds — the claim that the
whole input set is registered before any cross-type field resolution runs,
and that permuting the files leaves resolution unaffected, is false. -/
theorem c1_registration_counterexample :
    isOkE (generateModel initCfg [c1FileA, c1FileB]) = false
    ∧ generateModel initCfg [c1FileA, c1FileB] =
        Except.error ["unknown message type in refers_to: ", "N",
          " in field: ", "Ref", " of type: ", "M"]
    ∧ isOkE (generateModel initCfg [c1FileB, c1FileA]) = true :=
  ⟨rfl, rfl, rfl⟩

/-- The two independent single-message files of the C1 witness. -/
def c1FileW1 : PFile := { messages := [{ name := "A", opts := some { ormable := true } }] }

/-- The second file of the C1 witness. -/
def c1FileW2 : PFile := { messages := [{ name := "B", opts := some { ormable := true } }] }

/-- C1, witness: both orders of two independent files succeed, and the
amended theorem transports registration membership between them. -/
theorem c1_registration_witness :
    ([c1FileW1, c1FileW2].Perm [c1FileW2, c1FileW1])
    ∧ generateModel initCfg [c1FileW1, c1FileW2] =
        Except.ok { messages := ["A", "B"],
                    ormables := [("A", { originName := "A", name := "AORM" }),
                                 ("B", { originName := "B", name := "BORM" })] }
    ∧ generateModel initCfg [c1FileW2, c1FileW1] =
        Except.ok { messages := ["B", "A"],
                    ormables := [("B", { originName := "B", name := "BORM" }),
                                 ("A", { originName := "A", name := "AORM" })] }
    ∧ (("A" : String) ∈ (["A", "B"] : List String) ↔
        ("A" : String) ∈ (["B", "A"] : List String)) := by
  refine ⟨List.Perm.swap c1FileW2 c1FileW1 [], rfl, rfl, ?_⟩
  have h := c1_registration_amended initCfg [c1FileW1, c1FileW2] [c1FileW2, c1FileW1]
    { messages := ["A", "B"],
      ormables := [("A", { originName := "A", name := "AORM" }),
                   ("B", { originName := "B", name := "BORM" })] }
    { messages := ["B", "A"],
      ormables := [("B", { originName := "B", name := "BORM" }),
                   ("A", { originName := "A", name := "AORM" })] }
    (List.Perm.swap c1FileW2 c1FileW1 []) rfl rfl "A"
  exact h.1

/-! ## Claims C8 and C9: invariants of resolution and synthesis -/

/-- Decompose a successful `parseBasicFields` run into its three stages. -/
theorem parseBasicFields_ok_elim (cfg : PluginCfg) (messages ormNames : List String)
    (msg : PMessage) (orm0 orm' : OrmableType)
    (h : parseBasicFields cfg messages ormNames msg orm0 = Except.ok orm') :
    ∃ orm1 orm2,
      parseFieldsLoop cfg messages ormNames msg.name msg.fields
        { orm0 with name := msg.name ++ "ORM" } = Except.ok orm1
      ∧ multiAccountStep msg orm1 = Except.ok orm2
      ∧ includesLoop orm2.name (getMessageOptions msg).includedFields orm2 = Except.ok orm' := by
  unfold parseBasicFields at h
  cases hpl : parseFieldsLoop cfg messages ormNames msg.name msg.fields
      { orm0 with name := msg.name ++ "ORM" } with
  | error e =>
    rw [hpl] at h
    exact Except.noConfusion h
  | ok orm1 =>
    simp only [hpl] at h
    cases hma : multiAccountStep msg orm1 with
    | error e =>
      rw [hma] at h
      exact Except.noConfusion h
    | ok orm2 =>
      simp only [hma] at h
      exact ⟨orm1, orm2, rfl, hma, h⟩

/-- The field loop never records a field under a name all of whose declared
fields are dropped. -/
theorem parseFieldsLoop_lookup_none (cfg : PluginCfg) (messages ormNames : List String)
    (typeName : String) (fl : List PField) (orm orm' : OrmableType) (target : String)
    (h0 : lookupA target orm.fields = none)
    (hall : ∀ f ∈ fl, f.goName = target → getDrop f = true)
    (h : parseFieldsLoop cfg messages ormNames typeName fl orm = Except.ok orm') :
    lookupA target orm'.fields = none := by
  induction fl generalizing orm with
  | nil =>
    rw [parseFieldsLoop] at h
    injection h with h
    subst h
    exact h0
  | cons f rest ih =>
    rw [parseFieldsLoop] at h
    have htail : ∀ f' ∈ rest, f'.goName = target → getDrop f' = true :=
      fun f' hf' => hall f' (List.mem_cons_of_mem _ hf')
    cases hc : classifyField cfg ormNames f with
    | skip =>
      simp only [hc] at h
      exact ih _ h0 htail h
    | fail args =>
      rw [hc] at h
      exact Except.noConfusion h
    | keep t opts =>
      simp only [hc] at h
      have hne : f.goName ≠ target := by
        intro he
        have hd := hall f (List.mem_cons_self _ _) he
        rw [classifyField_drop cfg ormNames f hd] at hc
        exact FieldRes.noConfusion hc
      have hkeep : ∀ v : OrmField, lookupA target (insertA f.goName v orm.fields) = none := by
        intro v
        rw [lookupA_insertA, if_neg hne]
        exact h0
      by_cases ht : getReferenceOf f ≠ ""
      · rw [if_pos ht] at h
        by_cases hmem : getReferenceOf f ∈ messages
        · rw [if_pos hmem] at h
          exact ih _ (hkeep _) htail h
        · rw [if_neg hmem] at h
          exact Except.noConfusion h
      · rw [if_neg ht] at h
        exact ih _ (hkeep _) htail h

/-- The multi-account step only ever adds the `AccountID` field. -/
theorem multiAccountStep_lookup_none (msg : PMessage) (orm orm' : OrmableType)
    (target : String) (h0 : lookupA target orm.fields = none)
    (hne : (getMessageOptions msg).multiAccount = true → target ≠ "AccountID")
    (h : multiAccountStep msg orm = Except.ok orm') :
    lookupA target orm'.fields = none := by
  unfold multiAccountStep at h
  by_cases hma : (getMessageOptions msg).multiAccount
  · rw [if_pos hma] at h
    cases hacc : lookupA "AccountID" orm.fields with
    | none =>
      simp only [hacc] at h
      injection h with h
      subst h
      rw [lookupA_insertA, if_neg (fun he => hne hma he.symm)]
      exact h0
    | some accID =>
      simp only [hacc] at h
      by_cases hty : accID.typ ≠ "string"
      · rw [if_pos hty] at h
        exact Except.noConfusion h
      · rw [if_neg hty] at h
        injection h with h
        subst h
        exact h0
  · rw [if_neg hma] at h
    injection h with h
    subst h
    exact h0

/-- The included-fields loop inserts only under the CamelCased include
names. -/
theorem includesLoop_lookup_none (ormName : String) (l : List ExtraField)
    (orm orm' : OrmableType) (target : String)
    (h0 : lookupA target orm.fields = none)
    (hall : ∀ e ∈ l, camelCase e.name ≠ target)
    (h : includesLoop ormName l orm = Except.ok orm') :
    lookupA target orm'.fields = none := by
  induction l generalizing orm with
  | nil =>
    rw [includesLoop] at h
    injection h with h
    subst h
    exact h0
  | cons e rest ih =>
    rw [includesLoop] at h
    cases hacc : lookupA e.name orm.fields with
    | some v =>
      simp only [hacc] at h
      exact Except.noConfusion h
    | none =>
      simp only [hacc] at h
      refine ih _ ?_ (fun e' he' => hall e' (List.mem_cons_of_mem _ he')) h
      show lookupA target (insertA (camelCase e.name) _ orm.fields) = none
      rw [lookupA_insertA, if_neg (hall e (List.mem_cons_self _ _))]
      exact h0

/-- Fields carrying a has-many position annotation in the resolved map all
come from declared wire fields (the multi-account and included insertions
carry no has-many options). -/
theorem parseFieldsLoop_hasMany_origin (cfg : PluginCfg) (messages ormNames : List String)
    (typeName : String) (fl : List PField) (orm orm' : OrmableType)
    (h : parseFieldsLoop cfg messages ormNames typeName fl orm = Except.ok orm')
    (n : String) (fld : OrmField) (hlk : lookupA n orm'.fields = some fld)
    (hpos : getHasManyPosition fld.opts ≠ "") :
    (∃ f, f ∈ fl ∧ f.goName = n) ∨
      ∃ fld0, lookupA n orm.fields = some fld0 ∧ getHasManyPosition fld0.opts ≠ "" := by
  induction fl generalizing orm with
  | nil =>
    rw [parseFieldsLoop] at h
    injection h with h
    subst h
    exact Or.inr ⟨fld, hlk, hpos⟩
  | cons f rest ih =>
    rw [parseFieldsLoop] at h
    have hstep : ∀ v : OrmField,
        parseFieldsLoop cfg messages ormNames typeName rest
          { orm with fields := insertA f.goName v orm.fields } = Except.ok orm' →
        (∃ f', f' ∈ f :: rest ∧ f'.goName = n) ∨
          ∃ fld0, lookupA n orm.fields = some fld0 ∧ getHasManyPosition fld0.opts ≠ "" := by
      intro v hrec
      rcases ih _ hrec with ⟨f', hf', he⟩ | ⟨fld0, hf0, hp0⟩
      · exact Or.inl ⟨f', List.mem_cons_of_mem _ hf', he⟩
      · rw [lookupA_insertA] at hf0
        by_cases he : f.goName = n
        · exact Or.inl ⟨f, List.mem_cons_self _ _, he⟩
        · rw [if_neg he] at hf0
          exact Or.inr ⟨fld0, hf0, hp0⟩
    cases hc : classifyField cfg ormNames f with
    | skip =>
      simp only [hc] at h
      rcases ih _ h with ⟨f', hf', he⟩ | hold
      · exact Or.inl ⟨f', List.mem_cons_of_mem _ hf', he⟩
      · exact Or.inr hold
    | fail args =>
      rw [hc] at h
      exact Except.noConfusion h
    | keep t opts =>
      simp only [hc] at h
      by_cases ht : getReferenceOf f ≠ ""
      · rw [if_pos ht] at h
        by_cases hmem : getReferenceOf f ∈ messages
        · rw [if_pos hmem] at h
          exact hstep _ h
        · rw [if_neg hmem] at h
          exact Except.noConfusion h
      · rw [if_neg ht] at h
        exact hstep _ h

/-- The multi-account step adds no has-many position annotation. -/
theorem multiAccountStep_hasMany_origin (msg : PMessage) (orm orm' : OrmableType)
    (h : multiAccountStep msg orm = Except.ok orm') (n : String) (fld : OrmField)
    (hlk : lookupA n orm'.fields = some fld) (hpos : getHasManyPosition fld.opts ≠ "") :
    ∃ fld0, lookupA n orm.fields = some fld0 ∧ getHasManyPosition fld0.opts ≠ "" := by
  unfold multiAccountStep at h
  by_cases hma : (getMessageOptions msg).multiAccount
  · rw [if_pos hma] at h
    cases hacc : lookupA "AccountID" orm.fields with
    | none =>
      simp only [hacc] at h
      injection h with h
      subst h
      rw [lookupA_insertA] at hlk
      by_cases he : "AccountID" = n
      · rw [if_pos he] at hlk
        injection hlk with hlk
        subst hlk
        exact absurd rfl hpos
      · rw [if_neg he] at hlk
        exact ⟨fld, hlk, hpos⟩
    | some accID =>
      simp only [hacc] at h
      by_cases hty : accID.typ ≠ "string"
      · rw [if_pos hty] at h
        exact Except.noConfusion h
      · rw [if_neg hty] at h
        injection h with h
        subst h
        exact ⟨fld, hlk, hpos⟩
  · rw [if_neg hma] at h
    injection h with h
    subst h
    exact ⟨fld, hlk, hpos⟩

/-- Included fields carry only a column tag: no has-many position
annotation. -/
theorem includesLoop_hasMany_origin (ormName : String) (l : List ExtraField)
    (orm orm' : OrmableType)
    (h : includesLoop ormName l orm = Except.ok orm') (n : String) (fld : OrmField)
    (hlk : lookupA n orm'.fields = some fld) (hpos : getHasManyPosition fld.opts ≠ "") :
    ∃ fld0, lookupA n orm.fields = some fld0 ∧ getHasManyPosition fld0.opts ≠ "" := by
  induction l generalizing orm with
  | nil =>
    rw [includesLoop] at h
    injection h with h
    subst h
    exact ⟨fld, hlk, hpos⟩
  | cons e rest ih =>
    rw [includesLoop] at h
    cases hacc : lookupA e.name orm.fields with
    | some v =>
      simp only [hacc] at h
      exact Except.noConfusion h
    | none =>
      simp only [hacc] at h
      obtain ⟨fld0, hf0, hp0⟩ := ih _ h
      simp only [addIncludedField] at hf0
      rw [lookupA_insertA] at hf0
      by_cases he : camelCase e.name = n
      · rw [if_pos he] at hf0
        injection hf0 with hf0
        subst hf0
        exact absurd rfl hp0
      · rw [if_neg he] at hf0
        exact ⟨fld0, hf0, hp0⟩

/-- After a successful `parseBasicFields` run from a fresh ormable type,
every field carrying a has-many position annotation is named after a
declared wire field of the message. -/
theorem parseBasicFields_hasMany_origin (cfg : PluginCfg) (messages ormNames : List String)
    (msg : PMessage) (orm0 orm' : OrmableType) (h0 : orm0.fields = [])
    (h : parseBasicFields cfg messages ormNames msg orm0 = Except.ok orm')
    (n : String) (fld : OrmField) (hlk : lookupA n orm'.fields = some fld)
    (hpos : getHasManyPosition fld.opts ≠ "") :
    ∃ f, f ∈ msg.fields ∧ f.goName = n := by
  obtain ⟨orm1, orm2, hpl, hma, hinc⟩ := parseBasicFields_ok_elim cfg messages ormNames
    msg orm0 orm' h
  obtain ⟨fld2, hlk2, hp2⟩ := includesLoop_hasMany_origin _ _ _ _ hinc n fld hlk hpos
  obtain ⟨fld1, hlk1, hp1⟩ := multiAccountStep_hasMany_origin _ _ _ hma n fld2 hlk2 hp2
  rcases parseFieldsLoop_hasMany_origin cfg messages ormNames msg.name msg.fields
      _ _ hpl n fld1 hlk1 hp1 with hleft | ⟨fld0, hf0, _⟩
  · exact hleft
  · rw [show ({ orm0 with name := msg.name ++ "ORM" } : OrmableType).fields = orm0.fields
      from rfl, h0] at hf0
    exact Option.noConfusion hf0

/-- Case analysis of membership in the emitted `ToORM` step list. -/
theorem mem_emitToORM_elim (cfg : PluginCfg) (ormNames : List String) (orm : OrmableType)
    (msg : PMessage) (s : ConvStep) (h : s ∈ emitToORM cfg ormNames orm msg) :
    s = ConvStep.beforeHook ∨ s = ConvStep.afterHook
    ∨ (∃ f, f ∈ msg.fields ∧ getDrop f = false
        ∧ s = ConvStep.fieldConv f.goName (convKindOf cfg ormNames f))
    ∨ ((getMessageOptions msg).multiAccount = true ∧ s = ConvStep.accountID)
    ∨ s ∈ orderedStampSteps orm := by
  unfold emitToORM at h
  rcases List.mem_append.mp h with h | h
  · rcases List.mem_append.mp h with h | h
    · rcases List.mem_append.mp h with h | h
      · rcases List.mem_append.mp h with h | h
        · simp at h
          exact Or.inl h
        · obtain ⟨f, hf, he⟩ := List.mem_map.mp h
          obtain ⟨hf1, hf2⟩ := List.mem_filter.mp hf
          exact Or.inr (Or.inr (Or.inl ⟨f, hf1, by simpa using hf2, he.symm⟩))
      · by_cases hma : (getMessageOptions msg).multiAccount
        · rw [if_pos hma] at h
          simp at h
          exact Or.inr (Or.inr (Or.inr (Or.inl ⟨hma, h⟩)))
        · rw [if_neg hma] at h
          simp at h
    · exact Or.inr (Or.inr (Or.inr (Or.inr h)))
  · simp at h
    exact Or.inr (Or.inl h)

/-- Case analysis of membership in the emitted `ToPB` step list. -/
theorem mem_emitToPB_elim (cfg : PluginCfg) (ormNames : List String)
    (msg : PMessage) (s : ConvStep) (h : s ∈ emitToPB cfg ormNames msg) :
    s = ConvStep.beforeHook ∨ s = ConvStep.afterHook
    ∨ (∃ f, f ∈ msg.fields ∧ getDrop f = false
        ∧ s = ConvStep.fieldConv f.goName (convKindOf cfg ormNames f)) := by
  unfold emitToPB at h
  rcases List.mem_append.mp h with h | h
  · rcases List.mem_append.mp h with h | h
    · simp at h
      exact Or.inl h
    · obtain ⟨f, hf, he⟩ := List.mem_map.mp h
      obtain ⟨hf1, hf2⟩ := List.mem_filter.mp hf
      exact Or.inr (Or.inr ⟨f, hf1, by simpa using hf2, he.symm⟩)
  · simp at h
    exact Or.inr (Or.inl h)

/-- C8: a drop-annotated field is recorded nowhere — resolution records no
storage field under its name, and neither conversion direction emits any
transform referring to it.  The hypotheses pin down the name: every declared
field sharing the dropped field's name is itself dropped, the name is not
the synthesized `AccountID` when multi-account is on, and no included extra
field CamelCases to it. -/
theorem c8_dropped_field (cfg : PluginCfg) (messages ormNames : List String)
    (msg : PMessage) (orm0 orm' : OrmableType) (pf : PField)
    (h0 : orm0.fields = [])
    (_h1 : pf ∈ msg.fields) (_hd : getDrop pf = true)
    (h2 : ∀ f ∈ msg.fields, f.goName = pf.goName → getDrop f = true)
    (h3 : (getMessageOptions msg).multiAccount = true → pf.goName ≠ "AccountID")
    (h4 : ∀ e ∈ (getMessageOptions msg).includedFields, camelCase e.name ≠ pf.goName)
    (hok : parseBasicFields cfg messages ormNames msg orm0 = Except.ok orm') :
    lookupA pf.goName orm'.fields = none
    ∧ (∀ s ∈ emitToORM cfg ormNames orm' msg, pf.goName ∉ stepRefs s)
    ∧ (∀ s ∈ emitToPB cfg ormNames msg, pf.goName ∉ stepRefs s) := by
  obtain ⟨orm1, orm2, hpl, hma, hinc⟩ := parseBasicFields_ok_elim cfg messages ormNames
    msg orm0 orm' hok
  have hl1 : lookupA pf.goName orm1.fields = none := by
    refine parseFieldsLoop_lookup_none cfg messages ormNames msg.name msg.fields _ _ _ ?_ h2 hpl
    rw [show ({ orm0 with name := msg.name ++ "ORM" } : OrmableType).fields = orm0.fields
      from rfl, h0]
    rfl
  have hl2 : lookupA pf.goName orm2.fields = none :=
    multiAccountStep_lookup_none msg orm1 orm2 pf.goName hl1 h3 hma
  have hl3 : lookupA pf.goName orm'.fields = none :=
    includesLoop_lookup_none orm2.name _ orm2 orm' pf.goName hl2 h4 hinc
  refine ⟨hl3, ?_, ?_⟩
  · intro s hs hmem
    rcases mem_emitToORM_elim cfg ormNames orm' msg s hs with
      rfl | rfl | ⟨f, hf, hnd, rfl⟩ | ⟨hmac, rfl⟩ | hord
    · simp [stepRefs] at hmem
    · simp [stepRefs] at hmem
    · simp [stepRefs] at hmem
      rw [h2 f hf hmem.symm] at hnd
      exact Bool.noConfusion hnd
    · simp [stepRefs] at hmem
      exact h3 hmac hmem
    · obtain ⟨n, fld, hlk, _, rfl⟩ := mem_orderedStampSteps orm' s hord
      simp [stepRefs] at hmem
      rw [hmem] at hl3
      rw [hl3] at hlk
      exact Option.noConfusion hlk
  · intro s hs hmem
    rcases mem_emitToPB_elim cfg ormNames msg s hs with rfl | rfl | ⟨f, hf, hnd, rfl⟩
    · simp [stepRefs] at hmem
    · simp [stepRefs] at hmem
    · simp [stepRefs] at hmem
      rw [h2 f hf hmem.symm] at hnd
      exact Bool.noConfusion hnd

/-- C9: the included extra fields and the synthesized `AccountID` live only
on the storage struct — every transform emitted for `ToPB` reads and writes
only declared wire field names, so the storage→wire direction never touches
them; and in `ToORM` the only emitted step referring to `AccountID` is the
multi-account assignment itself, while no emitted step refers to an
included field's name. -/
theorem c9_storage_only_fields (cfg : PluginCfg) (messages ormNames : List String)
    (msg : PMessage) (orm0 orm' : OrmableType)
    (h0 : orm0.fields = [])
    (hok : parseBasicFields cfg messages ormNames msg orm0 = Except.ok orm')
    (hA : ∀ f ∈ msg.fields, f.goName ≠ "AccountID")
    (hI : ∀ e ∈ (getMessageOptions msg).includedFields, ∀ f ∈ msg.fields,
      f.goName ≠ camelCase e.name)
    (hIA : ∀ e ∈ (getMessageOptions msg).includedFields, camelCase e.name ≠ "AccountID") :
    (∀ s ∈ emitToPB cfg ormNames msg, ∀ n ∈ stepRefs s, n ∈ msg.fields.map (fun f => f.goName))
    ∧ (∀ s ∈ emitToPB cfg ormNames msg, "AccountID" ∉ stepRefs s
        ∧ ∀ e ∈ (getMessageOptions msg).includedFields, camelCase e.name ∉ stepRefs s)
    ∧ (∀ s ∈ emitToORM cfg ormNames orm' msg, "AccountID" ∈ stepRefs s →
        s = ConvStep.accountID)
    ∧ (∀ e ∈ (getMessageOptions msg).includedFields, ∀ s ∈ emitToORM cfg ormNames orm' msg,
        camelCase e.name ∉ stepRefs s) := by
  have hpb : ∀ s ∈ emitToPB cfg ormNames msg, ∀ n ∈ stepRefs s,
      n ∈ msg.fields.map (fun f => f.goName) := by
    intro s hs n hn
    rcases mem_emitToPB_elim cfg ormNames msg s hs with rfl | rfl | ⟨f, hf, _, rfl⟩
    · simp [stepRefs] at hn
    · simp [stepRefs] at hn
    · simp [stepRefs] at hn
      subst hn
      exact List.mem_map.mpr ⟨f, hf, rfl⟩
  refine ⟨hpb, ?_, ?_, ?_⟩
  · intro s hs
    constructor
    · intro hmem
      obtain ⟨f, hf, he⟩ := List.mem_map.mp (hpb s hs _ hmem)
      exact hA f hf he
    · intro e he hmem
      obtain ⟨f, hf, he'⟩ := List.mem_map.mp (hpb s hs _ hmem)
      exact hI e he f hf he'
  · intro s hs hmem
    rcases mem_emitToORM_elim cfg ormNames orm' msg s hs with
      rfl | rfl | ⟨f, hf, _, rfl⟩ | ⟨_, rfl⟩ | hord
    · simp [stepRefs] at hmem
    · simp [stepRefs] at hmem
    · simp [stepRefs] at hmem
      exact absurd hmem.symm (hA f hf)
    · rfl
    · obtain ⟨n, fld, hlk, hp, rfl⟩ := mem_orderedStampSteps orm' s hord
      simp [stepRefs] at hmem
      obtain ⟨f, hf, he⟩ := parseBasicFields_hasMany_origin cfg messages ormNames msg
        orm0 orm' h0 hok n fld hlk hp
      rw [← hmem] at he
      exact absurd he (hA f hf)
  · intro e he s hs hmem
    rcases mem_emitToORM_elim cfg ormNames orm' msg s hs with
      rfl | rfl | ⟨f, hf, _, rfl⟩ | ⟨_, rfl⟩ | hord
    · simp [stepRefs] at hmem
    · simp [stepRefs] at hmem
    · simp [stepRefs] at hmem
      exact hI e he f hf hmem.symm
    · simp [stepRefs] at hmem
      exact hIA e he hmem
    · obtain ⟨n, fld, hlk, hp, rfl⟩ := mem_orderedStampSteps orm' s hord
      simp [stepRefs] at hmem
      obtain ⟨f, hf, he'⟩ := parseBasicFields_hasMany_origin cfg messages ormNames msg
        orm0 orm' h0 hok n fld hlk hp
      rw [← hmem] at he'
      exact hI e he f hf he'

/-- The dropped field of the C8 witness. -/
def c8SecretField : PField :=
  { goName := "Secret", desc := FieldDesc.scalar ScalarKind.kstring,
    opts := some { drop := true } }

/-- The C8 witness message: a dropped field, a kept field, multi-account on,
one included extra field. -/
def c8Msg : PMessage :=
  { name := "T",
    opts := some
      { ormable := true, multiAccount := true,
        includedFields := [{ name := "extra_info", typ := "string" }] },
    fields :=
      [c8SecretField,
       { goName := "Keep", desc := FieldDesc.scalar ScalarKind.kint64 }] }

/-- The resolved type the C8 witness run produces. -/
def c8Orm : OrmableType :=
  { originName := "T", name := "TORM",
    fields :=
      [("Keep", { typ := "int64", opts := some {} }),
       ("AccountID", { typ := "string" }),
       ("ExtraInfo", { typ := "string", opts := some {} })] }

/-- C8, witness: resolving the witness message records nothing under
`Secret`, and no emitted step of either direction refers to `Secret`. -/
theorem c8_dropped_field_witness :
    parseBasicFields initCfg ["T"] ["T"] c8Msg (newOrmableType c8Msg) = Except.ok c8Orm
    ∧ getDrop c8SecretField = true
    ∧ lookupA "Secret" c8Orm.fields = none
    ∧ (∀ s ∈ emitToORM initCfg ["T"] c8Orm c8Msg, "Secret" ∉ stepRefs s)
    ∧ (∀ s ∈ emitToPB initCfg ["T"] c8Msg, "Secret" ∉ stepRefs s) := by
  have h := c8_dropped_field initCfg ["T"] ["T"] c8Msg (newOrmableType c8Msg) c8Orm
    c8SecretField rfl (List.mem_cons_self _ _) rfl (by decide) (by decide) (by decide) rfl
  exact ⟨rfl, rfl, h.1, h.2.1, h.2.2⟩

/-- The C9 witness message: a field with an ordered has-many position
annotation, a plain field, multi-account on, one included extra field. -/
def c9Msg : PMessage :=
  { name := "P",
    opts := some
      { ormable := true, multiAccount := true,
        includedFields := [{ name := "extra_info", typ := "string" }] },
    fields :=
      [{ goName := "Children", desc := FieldDesc.scalar ScalarKind.kint64,
         opts := some { hasMany := some { positionField := "Pos" } } },
       { goName := "Name", desc := FieldDesc.scalar ScalarKind.kstring }] }

/-- The resolved type the C9 witness run produces. -/
def c9Orm : OrmableType :=
  { originName := "P", name := "PORM",
    fields :=
      [("Children",
        { typ := "int64",
          opts := some { hasMany := some { positionField := "Pos" } } }),
       ("Name", { typ := "string", opts := some {} }),
       ("AccountID", { typ := "string" }),
       ("ExtraInfo", { typ := "string", opts := some {} })] }

/-- C9, witness: on the witness run — whose emitted `ToORM` contains field
transforms, the multi-account assignment and an ordered stamping loop — the
only `ToORM` step referring to `AccountID` is the assignment itself, no
`ToORM` step refers to the included `ExtraInfo`, and no `ToPB` step refers
to either. -/
theorem c9_storage_only_fields_witness :
    parseBasicFields initCfg ["P"] ["P"] c9Msg (newOrmableType c9Msg) = Except.ok c9Orm
    ∧ ConvStep.accountID ∈ emitToORM initCfg ["P"] c9Orm c9Msg
    ∧ ConvStep.orderedStamp "Children" "Pos" ∈ emitToORM initCfg ["P"] c9Orm c9Msg
    ∧ (∀ s ∈ emitToORM initCfg ["P"] c9Orm c9Msg, "AccountID" ∈ stepRefs s →
        s = ConvStep.accountID)
    ∧ (∀ s ∈ emitToORM initCfg ["P"] c9Orm c9Msg, "ExtraInfo" ∉ stepRefs s)
    ∧ (∀ s ∈ emitToPB initCfg ["P"] c9Msg, "AccountID" ∉ stepRefs s ∧ "ExtraInfo" ∉ stepRefs s) := by
  have h := c9_storage_only_fields initCfg ["P"] ["P"] c9Msg (newOrmableType c9Msg) c9Orm
    rfl rfl (by decide) (by decide) (by decide)
  refine ⟨rfl, by decide, by decide, h.2.2.1, ?_, ?_⟩
  · intro s hs
    exact h.2.2.2 { name := "extra_info", typ := "string" } (by decide) s hs
  · intro s hs
    exact ⟨(h.2.1 s hs).1,
      (h.2.1 s hs).2 { name := "extra_info", typ := "string" } (by decide)⟩

end ProtocGenGorm
